import Mathlib

/-! Shallow embedding of the retail-analytics pipeline in `src/app.py`.

Numeric cells are modelled as exact rationals.  Derived ratio columns
(shares, period-over-period percentage changes) are modelled by the type
`Val`, which also carries the IEEE non-finite results that numpy produces
silently: `0/0` gives NaN and `x/0` for `x ≠ 0` gives a signed infinity.
pandas `groupby` is modelled as iteration over the key tuples observed in
the data, in accordance with its `dropna=True` default: rows whose key
contains a null (a missing brand, or a price outside every boundary) are
dropped from the grouped table.  `DataFrame.round(2)` is modelled by
`round2` (round half to even, as numpy does). -/

namespace Lamp

/-- Result of a floating-point computation: a finite rational, NaN, or a
signed infinity. -/
inductive Val where
  | num (q : ℚ)
  | nan
  | pinf
  | minf
deriving DecidableEq, Repr

/-- Division as numpy performs it on float columns: `0/0` is NaN and
`a/0` for `a ≠ 0` is a signed infinity; no exception is ever raised. -/
def npDivVal (a b : ℚ) : Val :=
  if b = 0 then (if a = 0 then .nan else if 0 < a then .pinf else .minf)
  else .num (a / b)

/-- Multiplication by the scalar 100 (`* 100` applied to a float column). -/
def Val.scale100 : Val → Val
  | num q => num (100 * q)
  | v => v

/-- Subtraction of the scalar 1 (`- 1` applied to a float column). -/
def Val.sub1 : Val → Val
  | num q => num (q - 1)
  | v => v

/-- IEEE division of two possibly non-finite values. -/
def Val.divV : Val → Val → Val
  | num a, num b => npDivVal a b
  | nan, _ => nan
  | _, nan => nan
  | pinf, pinf => nan
  | pinf, minf => nan
  | minf, pinf => nan
  | minf, minf => nan
  | pinf, num b => if 0 ≤ b then pinf else minf
  | minf, num b => if 0 ≤ b then minf else pinf
  | num _, pinf => num 0
  | num _, minf => num 0

/-- IEEE subtraction of two possibly non-finite values. -/
def Val.subV : Val → Val → Val
  | num a, num b => num (a - b)
  | nan, _ => nan
  | _, nan => nan
  | pinf, pinf => nan
  | minf, minf => nan
  | pinf, _ => pinf
  | minf, _ => minf
  | _, pinf => minf
  | _, minf => pinf

/-- IEEE addition of two possibly non-finite values. -/
def Val.addV : Val → Val → Val
  | num a, num b => num (a + b)
  | nan, _ => nan
  | _, nan => nan
  | pinf, minf => nan
  | minf, pinf => nan
  | pinf, _ => pinf
  | _, pinf => pinf
  | minf, _ => minf
  | _, minf => minf

/-- Sum of a float column, as used when checking that shares add up. -/
def valSum (l : List Val) : Val := l.foldr Val.addV (.num 0)

/-- Percentage change of `v` relative to a preceding value `p`, exactly as
pandas `pct_change() * 100` computes it: `(v / p - 1) * 100`, with numpy
division semantics when `p = 0`. -/
def pctChangeVal (p v : ℚ) : Val := ((npDivVal v p).sub1).scale100

/-- Percentage change when the preceding value may be missing: the first
row of a `pct_change` column is NaN. -/
def pctChangeOpt : Option ℚ → ℚ → Val
  | none, _ => .nan
  | some p, v => pctChangeVal p v

/-- Round half to even to the nearest integer (numpy `rint`). -/
def rhe (q : ℚ) : ℤ :=
  if q - ⌊q⌋ < 1 / 2 then ⌊q⌋
  else if (1 : ℚ) / 2 < q - ⌊q⌋ then ⌊q⌋ + 1
  else if ⌊q⌋ % 2 = 0 then ⌊q⌋ else ⌊q⌋ + 1

/-- `DataFrame.round(2)`: round to two decimal places, half to even. -/
def round2 (q : ℚ) : ℚ := (rhe (100 * q) : ℚ) / 100

/-- One row of the unified record set produced by `combine_platform_data`:
product name, product link, revenue, unit volume, average price, brand
(possibly missing in the source sheet), plus the platform and period tags
attached at ingestion. -/
structure SaleRec where
  name : String
  link : String
  revenue : ℚ
  volume : ℚ
  price : ℚ
  brand : Option String
  platform : String
  period : String
deriving DecidableEq, Repr

/-- Sum of the revenue column over a slice of records. -/
def sumRev (l : List SaleRec) : ℚ := (l.map (·.revenue)).sum

/-- Sum of the volume column over a slice of records. -/
def sumVol (l : List SaleRec) : ℚ := (l.map (·.volume)).sum

/-- Mean of the average-price column over a slice of records. -/
def meanPrice (l : List SaleRec) : ℚ := (l.map (·.price)).sum / (l.length : ℚ)

/-- Price-segment assignment, exactly as `pd.cut(price, bins=ranges)` with
its defaults (`right=True`, `include_lowest=False`) performs it: the
interval `(ranges[i], ranges[i+1]]`, open on the left and closed on the
right, is assigned; a price at or below the first boundary, or above the
last, gets no segment.  The pair `(a, b)` stands for the label string
`"a-b"` built by the list comprehension over `ranges`. -/
def cutSegment : List ℚ → ℚ → Option (ℚ × ℚ)
  | a :: b :: rest, p =>
    if a < p ∧ p ≤ b then some (a, b) else cutSegment (b :: rest) p
  | _, _ => none

/-- Code-point lexicographic comparison of character lists. -/
def charListLe : List Char → List Char → Bool
  | [], _ => true
  | _ :: _, [] => false
  | a :: as, b :: bs =>
    if a.toNat < b.toNat then true
    else if b.toNat < a.toNat then false
    else charListLe as bs

/-- Code-point lexicographic string comparison, the order Python's
`sorted` and pandas `sort_values` use on the free-text period labels. -/
def strLe (a b : String) : Bool := charListLe a.data b.data

/-- Insert an element into a sorted list (used to model `sort_values`). -/
def insertSorted (le : α → α → Bool) (x : α) : List α → List α
  | [] => [x]
  | y :: ys => if le x y then x :: y :: ys else y :: insertSorted le x ys

/-- Insertion sort by the given comparison (model of `sort_values`; the
pandas sort is unstable on ties, so any arrangement of tied rows is a
faithful model). -/
def sortedBy (le : α → α → Bool) : List α → List α
  | [] => []
  | x :: xs => insertSorted le x (sortedBy le xs)

/-- The reserved rollup label `'所有平台'` ("all platforms"). -/
def ALL : String := "所有平台"

/-- Observed (period, platform) key tuples, as `groupby(['时间段', '平台'])`
enumerates them. -/
def periodPlatformKeys (df : List SaleRec) : List (String × String) :=
  (df.map (fun r => (r.period, r.platform))).dedup

/-- Observed period keys, as `groupby(['时间段'])` enumerates them. -/
def periodKeys (df : List SaleRec) : List String :=
  (df.map (·.period)).dedup

/-- One row of the grouped tables built inside `calculate_period_stats`:
summed revenue, summed volume and mean price, each rounded to two
decimals by the `.round(2)` in the source. -/
structure BaseStat where
  period : String
  platform : String
  revenue : ℚ
  volume : ℚ
  price : ℚ
deriving DecidableEq, Repr

/-- The `stats` row of `calculate_period_stats` for one observed
(period, platform) key. -/
def statFor (df : List SaleRec) (pe pl : String) : BaseStat :=
  let l := df.filter (fun r => decide (r.period = pe ∧ r.platform = pl))
  ⟨pe, pl, round2 (sumRev l), round2 (sumVol l), round2 (meanPrice l)⟩

/-- The `total_stats` rollup row of `calculate_period_stats` for one
observed period: same aggregation with the platform dimension removed and
the platform column set to the reserved label. -/
def totalStatFor (df : List SaleRec) (pe : String) : BaseStat :=
  let l := df.filter (fun r => decide (r.period = pe))
  ⟨pe, ALL, round2 (sumRev l), round2 (sumVol l), round2 (meanPrice l)⟩

/-- `all_stats` in `calculate_period_stats`: the per-platform rows
concatenated with the all-platform rollup rows. -/
def allStats (df : List SaleRec) : List BaseStat :=
  (periodPlatformKeys df).map (fun k => statFor df k.1 k.2)
    ++ (periodKeys df).map (totalStatFor df)

/-- A row of the final `calculate_period_stats` table: the aggregates plus
the three `pct_change() * 100` columns. -/
structure StatRow where
  period : String
  platform : String
  revenue : ℚ
  volume : ℚ
  price : ℚ
  dRevenue : Val
  dVolume : Val
  dPrice : Val
deriving DecidableEq, Repr

/-- A throwaway row used only as the default of `List.getD`. -/
def dummyStat : StatRow := ⟨"", "", 0, 0, 0, .nan, .nan, .nan⟩

/-- Walk a platform's period-sorted rows attaching the `pct_change() * 100`
columns; the carried argument is the previous row. -/
def addDeltaCols : Option BaseStat → List BaseStat → List StatRow
  | _, [] => []
  | p?, b :: bs =>
    ⟨b.period, b.platform, b.revenue, b.volume, b.price,
      pctChangeOpt (p?.map (·.revenue)) b.revenue,
      pctChangeOpt (p?.map (·.volume)) b.volume,
      pctChangeOpt (p?.map (·.price)) b.price⟩ :: addDeltaCols (some b) bs

/-- Comparison used by `sort_values(by=period)`: ascending lexicographic
order of the period label strings. -/
def basePeriodLe (a b : BaseStat) : Bool := strLe a.period b.period

/-- The rows `calculate_period_stats` produces for one platform (one pass
of its `for platform in all_stats['平台'].unique()` loop): the platform's
rows of `all_stats` are sorted by the period label and the three
percentage-change columns are attached. -/
def periodStatsFor (df : List SaleRec) (pl : String) : List StatRow :=
  addDeltaCols none
    (sortedBy basePeriodLe ((allStats df).filter (fun b => decide (b.platform = pl))))

/-- Platforms appearing in `all_stats`, as `unique()` enumerates them. -/
def platformsOfStats (df : List SaleRec) : List String :=
  ((allStats df).map (·.platform)).dedup

/-- `calculate_period_stats`: per-(period, platform) aggregates with an
all-platform rollup row per period, and per-platform period-over-period
percentage changes computed after sorting each platform's rows by the
period label. -/
def calculate_period_stats (df : List SaleRec) : List StatRow :=
  (platformsOfStats df).flatMap (fun pl => periodStatsFor df pl)

/-- Observed (period, platform, brand) keys of
`groupby(['时间段', '平台', '品牌'])`; rows with a missing brand are dropped
(`dropna=True`). -/
def brandKeys (df : List SaleRec) : List (String × String × String) :=
  (df.filterMap (fun r => r.brand.map (fun b => (r.period, r.platform, b)))).dedup

/-- Observed (period, brand) keys of `groupby(['时间段', '品牌'])`. -/
def periodBrandKeys (df : List SaleRec) : List (String × String) :=
  (df.filterMap (fun r => r.brand.map (fun b => (r.period, b)))).dedup

/-- The `period_platform_totals` revenue entry for one (period, platform)
stratum: the sum over every record of the stratum, brand or no brand. -/
def ppTotalRev (df : List SaleRec) (pe pl : String) : ℚ :=
  sumRev (df.filter (fun r => decide (r.period = pe ∧ r.platform = pl)))

/-- The `period_platform_totals` volume entry for one stratum. -/
def ppTotalVol (df : List SaleRec) (pe pl : String) : ℚ :=
  sumVol (df.filter (fun r => decide (r.period = pe ∧ r.platform = pl)))

/-- The `all_platform_totals` revenue entry for one period. -/
def pTotalRev (df : List SaleRec) (pe : String) : ℚ :=
  sumRev (df.filter (fun r => decide (r.period = pe)))

/-- The `all_platform_totals` volume entry for one period. -/
def pTotalVol (df : List SaleRec) (pe : String) : ℚ :=
  sumVol (df.filter (fun r => decide (r.period = pe)))

/-- A row of the `calculate_brand_share` table: per-brand aggregates and
the two share columns (percent of the parent stratum's total). -/
structure BrandRow where
  period : String
  platform : String
  brand : String
  revenue : ℚ
  volume : ℚ
  shareRev : Val
  shareVol : Val
deriving DecidableEq, Repr

/-- The `brand_stats` row for one observed (period, platform, brand) key;
the share divisions are performed by numpy with no zero guard. -/
def brandRowFor (df : List SaleRec) (k : String × String × String) : BrandRow :=
  let l := df.filter (fun r =>
    decide (r.period = k.1 ∧ r.platform = k.2.1 ∧ r.brand = some k.2.2))
  ⟨k.1, k.2.1, k.2.2, sumRev l, sumVol l,
    (npDivVal (sumRev l) (ppTotalRev df k.1 k.2.1)).scale100,
    (npDivVal (sumVol l) (ppTotalVol df k.1 k.2.1)).scale100⟩

/-- The `all_platform_brand_stats` rollup row for one (period, brand) key:
platform column set to the reserved label, shares against the period
total. -/
def allBrandRowFor (df : List SaleRec) (k : String × String) : BrandRow :=
  let l := df.filter (fun r => decide (r.period = k.1 ∧ r.brand = some k.2))
  ⟨k.1, ALL, k.2, sumRev l, sumVol l,
    (npDivVal (sumRev l) (pTotalRev df k.1)).scale100,
    (npDivVal (sumVol l) (pTotalVol df k.1)).scale100⟩

/-- `calculate_brand_share`: per-brand rows by (period, platform) with
their revenue and volume shares, concatenated with the all-platform
rollup rows. -/
def calculate_brand_share (df : List SaleRec) : List BrandRow :=
  (brandKeys df).map (brandRowFor df)
    ++ (periodBrandKeys df).map (allBrandRowFor df)

/-- Observed (period, platform, segment) keys of
`groupby(['时间段', '平台', '价位段'])`; records whose price falls outside
every boundary have a null segment and are dropped by the groupby. -/
def segKeys (df : List SaleRec) (ranges : List ℚ) :
    List (String × String × (ℚ × ℚ)) :=
  (df.filterMap (fun r =>
    (cutSegment ranges r.price).map (fun s => (r.period, r.platform, s)))).dedup

/-- Observed (period, segment) keys of `groupby(['时间段', '价位段'])`. -/
def periodSegKeys (df : List SaleRec) (ranges : List ℚ) :
    List (String × (ℚ × ℚ)) :=
  (df.filterMap (fun r =>
    (cutSegment ranges r.price).map (fun s => (r.period, s)))).dedup

/-- A row of `segment_stats` / `all_platform_segment_stats` inside
`analyze_price_segments`, before the percentage-change pass. -/
structure SegBase where
  period : String
  platform : String
  seg : ℚ × ℚ
  revenue : ℚ
  volume : ℚ
  shareRev : Val
  shareVol : Val
deriving DecidableEq, Repr

/-- The `segment_stats` row for one observed (period, platform, segment)
key.  The share divides by the (period, platform) total over every record
of the stratum, segment-less records included; the source's
`if x['价位段'] is not None else 0` guard never fires, because rows with a
null segment were already dropped by the groupby. -/
def segBaseFor (df : List SaleRec) (ranges : List ℚ)
    (k : String × String × (ℚ × ℚ)) : SegBase :=
  let l := df.filter (fun r =>
    decide (r.period = k.1 ∧ r.platform = k.2.1 ∧
      cutSegment ranges r.price = some k.2.2))
  ⟨k.1, k.2.1, k.2.2, sumRev l, sumVol l,
    (npDivVal (sumRev l) (ppTotalRev df k.1 k.2.1)).scale100,
    (npDivVal (sumVol l) (ppTotalVol df k.1 k.2.1)).scale100⟩

/-- The `all_platform_segment_stats` rollup row for one (period, segment)
key. -/
def allSegBaseFor (df : List SaleRec) (ranges : List ℚ)
    (k : String × (ℚ × ℚ)) : SegBase :=
  let l := df.filter (fun r =>
    decide (r.period = k.1 ∧ cutSegment ranges r.price = some k.2))
  ⟨k.1, ALL, k.2, sumRev l, sumVol l,
    (npDivVal (sumRev l) (pTotalRev df k.1)).scale100,
    (npDivVal (sumVol l) (pTotalVol df k.1)).scale100⟩

/-- `all_segment_stats`: per-platform segment rows concatenated with the
all-platform rollup rows. -/
def allSegStats (df : List SaleRec) (ranges : List ℚ) : List SegBase :=
  (segKeys df ranges).map (segBaseFor df ranges)
    ++ (periodSegKeys df ranges).map (allSegBaseFor df ranges)

/-- A row of the final `analyze_price_segments` table, with the two
share-change columns produced by `pct_change() * 100`. -/
structure SegRow where
  period : String
  platform : String
  seg : ℚ × ℚ
  revenue : ℚ
  volume : ℚ
  shareRev : Val
  shareVol : Val
  dShareRev : Val
  dShareVol : Val
deriving DecidableEq, Repr

/-- Forward fill of one entry, as the `fill_method='pad'` default of
`pct_change` performs it: a NaN entry is replaced by the previous filled
value when one exists. -/
def ffill (p? : Option Val) (v : Val) : Val :=
  match v with
  | .nan => p?.getD .nan
  | w => w

/-- One step of `pct_change() * 100` on a possibly non-finite series:
`(filled / previous - 1) * 100`, NaN on the first row. -/
def pctStep (p? : Option Val) (v : Val) : Val :=
  match p? with
  | none => .nan
  | some p => (((ffill p? v).divV p).sub1).scale100

/-- Walk one (platform, segment) group in period order attaching the two
share-change columns; the carried arguments are the previous filled
values of the two share series. -/
def segDeltaWalk : Option Val → Option Val → List SegBase → List SegRow
  | _, _, [] => []
  | pr, pv, b :: bs =>
    ⟨b.period, b.platform, b.seg, b.revenue, b.volume, b.shareRev, b.shareVol,
      pctStep pr b.shareRev, pctStep pv b.shareVol⟩ ::
      segDeltaWalk (some (ffill pr b.shareRev)) (some (ffill pv b.shareVol)) bs

/-- Comparison used by `sort_values(by=period)` on segment rows. -/
def segPeriodLe (a b : SegBase) : Bool := strLe a.period b.period

/-- `analyze_price_segments`: segment aggregates and shares by
(period, platform) with an all-platform rollup, then per
(platform, segment) group the period-sorted share-change columns.  When
the table is empty every loop is empty and the source's fallback return
is the same empty table. -/
def analyze_price_segments (df : List SaleRec) (ranges : List ℚ) :
    List SegRow :=
  let t := allSegStats df ranges
  (t.map (·.platform)).dedup.flatMap (fun pl =>
    let pd := t.filter (fun b => decide (b.platform = pl))
    (pd.map (·.seg)).dedup.flatMap (fun sg =>
      segDeltaWalk none none
        (sortedBy segPeriodLe (pd.filter (fun b => decide (b.seg = sg))))))

/-- A row handed to the share closures inside `get_top_brands_by_segment`:
the grouping key (with the segment still optional, as the closures test
`row['价位段'] is not None`) and the two aggregates. -/
structure TBRow where
  period : String
  platform : String
  seg : Option (ℚ × ℚ)
  brand : String
  revenue : ℚ
  volume : ℚ
deriving DecidableEq, Repr

/-- The `segment_totals` index lookup: a `.loc` on the observed
(period, platform, segment) keys, `none` modelling the `KeyError` raised
for a key the index does not contain. -/
def segTotal (df : List SaleRec) (ranges : List ℚ) (pe pl : String)
    (sg : ℚ × ℚ) : Option (ℚ × ℚ) :=
  let l := df.filter (fun r =>
    decide (r.period = pe ∧ r.platform = pl ∧
      cutSegment ranges r.price = some sg))
  if l.isEmpty then none else some (sumRev l, sumVol l)

/-- The `all_platform_segment_totals` index lookup on (period, segment)
keys. -/
def allSegTotal (df : List SaleRec) (ranges : List ℚ) (pe : String)
    (sg : ℚ × ℚ) : Option (ℚ × ℚ) :=
  let l := df.filter (fun r =>
    decide (r.period = pe ∧ cutSegment ranges r.price = some sg))
  if l.isEmpty then none else some (sumRev l, sumVol l)

/-- The `calculate_share` closure: revenue share of a row against its
(period, platform, segment) stratum total; the surrounding `try/except`
turns a failed lookup (and a null segment) into 0. -/
def calculate_share (df : List SaleRec) (ranges : List ℚ) (row : TBRow) : Val :=
  match row.seg with
  | none => .num 0
  | some sg =>
    match segTotal df ranges row.period row.platform sg with
    | none => .num 0
    | some t => (npDivVal row.revenue t.1).scale100

/-- The `calculate_volume_share` closure. -/
def calculate_volume_share (df : List SaleRec) (ranges : List ℚ)
    (row : TBRow) : Val :=
  match row.seg with
  | none => .num 0
  | some sg =>
    match segTotal df ranges row.period row.platform sg with
    | none => .num 0
    | some t => (npDivVal row.volume t.2).scale100

/-- The `calculate_all_platform_share` closure, against the
(period, segment) rollup totals. -/
def calculate_all_platform_share (df : List SaleRec) (ranges : List ℚ)
    (row : TBRow) : Val :=
  match row.seg with
  | none => .num 0
  | some sg =>
    match allSegTotal df ranges row.period sg with
    | none => .num 0
    | some t => (npDivVal row.revenue t.1).scale100

/-- The `calculate_all_platform_volume_share` closure. -/
def calculate_all_platform_volume_share (df : List SaleRec)
    (ranges : List ℚ) (row : TBRow) : Val :=
  match row.seg with
  | none => .num 0
  | some sg =>
    match allSegTotal df ranges row.period sg with
    | none => .num 0
    | some t => (npDivVal row.volume t.2).scale100

/-- A row of the `top_brands` aggregate inside
`get_top_brands_by_segment`, with the two share columns attached. -/
structure TopBrandRow where
  period : String
  platform : String
  seg : ℚ × ℚ
  brand : String
  revenue : ℚ
  volume : ℚ
  shareRev : Val
  shareVol : Val
deriving DecidableEq, Repr

/-- Observed (period, platform, segment, brand) keys of
`groupby(['时间段', '平台', '价位段', '品牌'])`. -/
def tbKeys (df : List SaleRec) (ranges : List ℚ) :
    List (String × String × (ℚ × ℚ) × String) :=
  (df.filterMap (fun r =>
    match cutSegment ranges r.price, r.brand with
    | some s, some b => some (r.period, r.platform, s, b)
    | _, _ => none)).dedup

/-- Observed (period, segment, brand) keys of
`groupby(['时间段', '价位段', '品牌'])`. -/
def periodSegBrandKeys (df : List SaleRec) (ranges : List ℚ) :
    List (String × (ℚ × ℚ) × String) :=
  (df.filterMap (fun r =>
    match cutSegment ranges r.price, r.brand with
    | some s, some b => some (r.period, s, b)
    | _, _ => none)).dedup

/-- The `top_brands` aggregate with its shares. -/
def topBrandAgg (df : List SaleRec) (ranges : List ℚ) : List TopBrandRow :=
  (tbKeys df ranges).map (fun k =>
    let l := df.filter (fun r =>
      decide (r.period = k.1 ∧ r.platform = k.2.1 ∧
        cutSegment ranges r.price = some k.2.2.1 ∧ r.brand = some k.2.2.2))
    ⟨k.1, k.2.1, k.2.2.1, k.2.2.2, sumRev l, sumVol l,
      calculate_share df ranges
        ⟨k.1, k.2.1, some k.2.2.1, k.2.2.2, sumRev l, sumVol l⟩,
      calculate_volume_share df ranges
        ⟨k.1, k.2.1, some k.2.2.1, k.2.2.2, sumRev l, sumVol l⟩⟩)

/-- The `all_platform_top_brands` rollup aggregate with its shares and the
platform column set to the reserved label. -/
def allTopBrandAgg (df : List SaleRec) (ranges : List ℚ) : List TopBrandRow :=
  (periodSegBrandKeys df ranges).map (fun k =>
    let l := df.filter (fun r =>
      decide (r.period = k.1 ∧ cutSegment ranges r.price = some k.2.1 ∧
        r.brand = some k.2.2))
    ⟨k.1, ALL, k.2.1, k.2.2, sumRev l, sumVol l,
      calculate_all_platform_share df ranges
        ⟨k.1, ALL, some k.2.1, k.2.2, sumRev l, sumVol l⟩,
      calculate_all_platform_volume_share df ranges
        ⟨k.1, ALL, some k.2.1, k.2.2, sumRev l, sumVol l⟩⟩)

/-- Comparison of `sort_values(by='零售额', ascending=False)`. -/
def revDesc (a b : TopBrandRow) : Bool := decide (b.revenue ≤ a.revenue)

/-- `sort_values(by='零售额', ascending=False).head(n)` applied to one
stratum. -/
def takeTop (n : ℕ) (l : List TopBrandRow) : List TopBrandRow :=
  (sortedBy revDesc l).take n

/-- `get_top_brands_by_segment`: for every combination of observed period,
platform and segment of the aggregate, the stratum's rows sorted
descending by revenue and truncated to `n`, followed by the same
selection over the all-platform rollup aggregate.  The source's final
`if/elif` merely concatenates the two (possibly empty) collections. -/
def get_top_brands_by_segment (df : List SaleRec) (ranges : List ℚ)
    (n : ℕ) : List TopBrandRow :=
  let t := topBrandAgg df ranges
  let u := allTopBrandAgg df ranges
  ((t.map (·.period)).dedup.flatMap (fun p =>
    (t.map (·.platform)).dedup.flatMap (fun pl =>
      (t.map (·.seg)).dedup.flatMap (fun sg =>
        takeTop n (t.filter (fun r =>
          decide (r.period = p ∧ r.platform = pl ∧ r.seg = sg)))))))
    ++ ((u.map (·.period)).dedup.flatMap (fun p =>
      (u.map (·.seg)).dedup.flatMap (fun sg =>
        takeTop n (u.filter (fun r =>
          decide (r.period = p ∧ r.seg = sg))))))

/-- A sheet of the output workbook holding top-brand rows: either real
data or the explicit one-cell "no data" placeholder table that
`format_excel_output` substitutes for an empty result. -/
inductive TopSheet where
  | placeholder
  | data (rows : List TopBrandRow)
deriving DecidableEq, Repr

/-- The `价位段TOP品牌` sheet written by `format_excel_output`: the real
table when it is non-empty, otherwise the placeholder table. -/
def topBrandsSheet (rows : List TopBrandRow) : TopSheet :=
  if rows.isEmpty then .placeholder else .data rows

/-- A wide row of the `品牌占比对比分析` sheet built by
`create_brand_comparison_sheet`: per-period revenue and revenue-share
values (absent when the brand has no row in that period) and the
consecutive-period share-difference columns. -/
structure BrandCompRow where
  platform : String
  brand : String
  perPeriod : List (String × Option (ℚ × Val))
  changes : List (String × String × Val)
deriving DecidableEq, Repr

/-- The share-difference chain of `create_brand_comparison_sheet`: walking
the platform's periods in sorted order, each period in which the brand
has a value yields, once a previous valued period exists, the column
`curr vs prev 占比变化(%)` holding the difference of the two shares. -/
def shareChangeWalk (bd : List BrandRow) :
    Option (String × Val) → List String → List (String × String × Val)
  | _, [] => []
  | st, p :: ps =>
    match (bd.find? (fun r => decide (r.period = p))).map (·.shareRev) with
    | none => shareChangeWalk bd st ps
    | some s =>
      match st with
      | none => shareChangeWalk bd (some (p, s)) ps
      | some pp => (p, pp.1, s.subV pp.2) :: shareChangeWalk bd (some (p, s)) ps

/-- Build one wide brand row from the brand's rows `bd` and the platform's
period list. -/
def mkBrandCompRow (pl b : String) (periods : List String)
    (bd : List BrandRow) : BrandCompRow :=
  ⟨pl, b,
    periods.map (fun p =>
      (p, (bd.find? (fun r => decide (r.period = p))).map
        (fun r => (r.revenue, r.shareRev)))),
    shareChangeWalk bd none (sortedBy strLe periods)⟩

/-- `create_brand_comparison_sheet`: nothing when the input covers at most
one period; otherwise, per platform, one wide row for every brand having
more than one row there (`len(brand_data) > 1`). -/
def create_brand_comparison_sheet (t : List BrandRow) : List BrandCompRow :=
  if 1 < ((t.map (·.period)).dedup.length) then
    (t.map (·.platform)).dedup.flatMap (fun pl =>
      let pd := t.filter (fun r => decide (r.platform = pl))
      let periods := (pd.map (·.period)).dedup
      (pd.map (·.brand)).dedup.filterMap (fun b =>
        let bd := pd.filter (fun r => decide (r.brand = b))
        if 1 < bd.length then some (mkBrandCompRow pl b periods bd) else none))
  else []

/-- A row of the `top_products` table consumed by
`create_top_products_comparison_sheet`. -/
structure ProdRow where
  period : String
  platform : String
  seg : ℚ × ℚ
  name : String
  link : String
  revenue : ℚ
  volume : ℚ
  price : ℚ
deriving DecidableEq, Repr

/-- A wide row of the `价位段产品对比分析` sheet. -/
structure ProdCompRow where
  platform : String
  seg : ℚ × ℚ
  name : String
  link : String
  perPeriod : List (String × Option (ℚ × ℚ × ℚ))
  revChanges : List (String × String × Val)
  volChanges : List (String × String × Val)
  priceChanges : List (String × String × Val)
deriving DecidableEq, Repr

/-- The change chain of `create_top_products_comparison_sheet`: walking the
sorted periods, a valued period yields the column
`curr vs prev 变化(%) = (curr / prev - 1) * 100` provided a previous
valued period exists and its value is non-zero; a zero previous value
still becomes the new predecessor but emits no column. -/
def prodChangeWalk (vals : String → Option ℚ) :
    Option (String × ℚ) → List String → List (String × String × Val)
  | _, [] => []
  | st, p :: ps =>
    match vals p with
    | none => prodChangeWalk vals st ps
    | some v =>
      match st with
      | none => prodChangeWalk vals (some (p, v)) ps
      | some pp =>
        if pp.2 = 0 then prodChangeWalk vals (some (p, v)) ps
        else (p, pp.1, Val.num ((v / pp.2 - 1) * 100)) ::
          prodChangeWalk vals (some (p, v)) ps

/-- Value of one metric of a product in one period: its first matching
row, if any. -/
def prodVal (pdata : List ProdRow) (f : ProdRow → ℚ) (p : String) : Option ℚ :=
  (pdata.find? (fun r => decide (r.period = p))).map f

/-- Build one wide product row from the product's rows `pdata` and the
segment's period list. -/
def mkProdCompRow (pl : String) (sg : ℚ × ℚ) (nm : String)
    (periods : List String) (pdata : List ProdRow) : ProdCompRow :=
  ⟨pl, sg, nm, ((pdata.head?).map (·.link)).getD "",
    periods.map (fun p =>
      (p, (pdata.find? (fun r => decide (r.period = p))).map
        (fun r => (r.revenue, r.volume, r.price)))),
    prodChangeWalk (prodVal pdata (·.revenue)) none (sortedBy strLe periods),
    prodChangeWalk (prodVal pdata (·.volume)) none (sortedBy strLe periods),
    prodChangeWalk (prodVal pdata (·.price)) none (sortedBy strLe periods)⟩

/-- `create_top_products_comparison_sheet`: nothing when the input covers
at most one period; otherwise, per platform and segment, the products are
ranked by the number of distinct periods they appear in
(`product_period_count`) and one wide row is emitted for every product
appearing in more than one period (`if count > 1`). -/
def create_top_products_comparison_sheet (t : List ProdRow) :
    List ProdCompRow :=
  if 1 < ((t.map (·.period)).dedup.length) then
    (t.map (·.platform)).dedup.flatMap (fun pl =>
      let pd := t.filter (fun r => decide (r.platform = pl))
      (pd.map (·.seg)).dedup.flatMap (fun sg =>
        let sd := pd.filter (fun r => decide (r.seg = sg))
        let periods := (sd.map (·.period)).dedup
        let counted := (sd.map (·.name)).dedup.map (fun nm =>
          (nm, ((sd.filter (fun r => decide (r.name = nm))).map
            (·.period)).dedup.length))
        (sortedBy (fun a b => decide (b.2 ≤ a.2)) counted).filterMap
          (fun nc =>
            if 1 < nc.2 then
              some (mkProdCompRow pl sg nc.1 periods
                (sd.filter (fun r => decide (r.name = nc.1))))
            else none)))
  else []

/-- A throwaway base row used only as the default of `List.getD`. -/
def dummyBase : BaseStat := ⟨"", "", 0, 0, 0⟩

/-- Shorthand for building one input record with fixed name and link. -/
def mkRec (pe pl : String) (b : Option String) (rev vol pr : ℚ) : SaleRec :=
  ⟨"p", "l", rev, vol, pr, b, pl, pe⟩

/-- Two periods whose label order is "A" before "B" while the supplied
chronology is "B" before "A": revenue 100 in period "B", 150 in "A". -/
def dfBA : List SaleRec :=
  [mkRec "B" "X" (some "b") 100 1 1, mkRec "A" "X" (some "b") 150 1 1]

/-- The spec's worked example: one key with revenues 100, 150, 90 in three
periods whose labels sort chronologically. -/
def dfABC : List SaleRec :=
  [mkRec "A" "X" (some "b") 100 10 10, mkRec "B" "X" (some "b") 150 10 10,
   mkRec "C" "X" (some "b") 90 10 10]

/-- Two platforms with revenue 0.004 each in the same period: rounding to
two decimals sends each platform row to 0.00 but the rollup to 0.01. -/
def dfRound : List SaleRec :=
  [mkRec "A" "P1" (some "b") (1 / 250) 1 1, mkRec "A" "P2" (some "b") (1 / 250) 1 1]

/-- A single record with zero revenue and volume: its stratum totals are
zero. -/
def dfZero : List SaleRec := [mkRec "A" "X" (some "b") 0 0 1]

/-- One key with revenue 0 in the first period and 5 in the second. -/
def dfZeroFive : List SaleRec :=
  [mkRec "A" "X" (some "b") 0 0 1, mkRec "B" "X" (some "b") 5 5 5]

/-- One stratum with an in-segment record (price 50, revenue 50) and a
record outside every boundary (price 400, revenue 50). -/
def dfSeg : List SaleRec :=
  [mkRec "A" "X" (some "b") 50 1 50, mkRec "A" "X" (some "c") 50 1 400]

/-- One stratum with three branded in-segment rows plus a second platform,
used to instantiate the top-N selector. -/
def dfTop : List SaleRec :=
  [mkRec "A" "X" (some "b1") 10 1 50, mkRec "A" "X" (some "b2") 20 1 60,
   mkRec "A" "X" (some "b3") 30 1 70, mkRec "A" "Y" (some "b1") 5 1 50]

/-- A product table where product "甲" appears in two periods with revenue
200 then 250 and product "乙" appears only in the first period. -/
def prodTable9 : List ProdRow :=
  [⟨"时间段 1", "X", (0, 100), "甲", "l1", 200, 1, 50⟩,
   ⟨"时间段 2", "X", (0, 100), "甲", "l1", 250, 1, 50⟩,
   ⟨"时间段 1", "X", (0, 100), "乙", "l2", 99, 1, 50⟩]

/-- A brand table where brand "bb" appears in two periods and brand "cc"
only in period "时间段 1". -/
def brandTable9 : List BrandRow :=
  [⟨"时间段 1", "X", "bb", 200, 1, Val.num 40, Val.num 40⟩,
   ⟨"时间段 2", "X", "bb", 250, 1, Val.num 50, Val.num 50⟩,
   ⟨"时间段 1", "X", "cc", 99, 1, Val.num 10, Val.num 10⟩]

/-! General-purpose lemmas about the sorting and grouping primitives. -/

theorem insertSorted_perm (le : α → α → Bool) (x : α) :
    ∀ l : List α, (insertSorted le x l).Perm (x :: l)
  | [] => List.Perm.refl _
  | y :: ys => by
    unfold insertSorted
    by_cases h : le x y = true
    · simp [h]
    · simp only [h, Bool.false_eq_true, if_false]
      exact ((insertSorted_perm le x ys).cons y).trans (List.Perm.swap x y ys)

theorem sortedBy_perm (le : α → α → Bool) :
    ∀ l : List α, (sortedBy le l).Perm l
  | [] => List.Perm.refl _
  | x :: xs =>
    (insertSorted_perm le x (sortedBy le xs)).trans ((sortedBy_perm le xs).cons x)

theorem mem_sortedBy {le : α → α → Bool} {l : List α} {a : α} :
    a ∈ sortedBy le l ↔ a ∈ l :=
  (sortedBy_perm le l).mem_iff

theorem length_sortedBy (le : α → α → Bool) (l : List α) :
    (sortedBy le l).length = l.length :=
  (sortedBy_perm le l).length_eq

theorem insertSorted_pairwise {le : α → α → Bool}
    (htot : ∀ a b, le a b = true ∨ le b a = true)
    (htr : ∀ a b c, le a b = true → le b c = true → le a c = true) (x : α) :
    ∀ l : List α, l.Pairwise (fun a b => le a b = true) →
      (insertSorted le x l).Pairwise (fun a b => le a b = true)
  | [], _ => List.pairwise_singleton _ x
  | y :: ys, hp => by
    rcases List.pairwise_cons.mp hp with ⟨hy, hys⟩
    unfold insertSorted
    by_cases h : le x y = true
    · simp only [h, if_true]
      refine List.pairwise_cons.mpr ⟨?_, hp⟩
      intro b hb
      rcases List.mem_cons.mp hb with rfl | hb
      · exact h
      · exact htr x y b h (hy b hb)
    · simp only [h, Bool.false_eq_true, if_false]
      refine List.pairwise_cons.mpr ⟨?_, insertSorted_pairwise htot htr x ys hys⟩
      intro b hb
      rcases List.mem_cons.mp ((insertSorted_perm le x ys).mem_iff.mp hb) with rfl | hb
      · rcases htot b y with hxy | hyx
        · exact absurd hxy h
        · exact hyx
      · exact hy b hb

theorem sortedBy_pairwise {le : α → α → Bool}
    (htot : ∀ a b, le a b = true ∨ le b a = true)
    (htr : ∀ a b c, le a b = true → le b c = true → le a c = true) :
    ∀ l : List α, (sortedBy le l).Pairwise (fun a b => le a b = true)
  | [] => List.Pairwise.nil
  | x :: xs => insertSorted_pairwise htot htr x _ (sortedBy_pairwise htot htr xs)

theorem charListLe_total : ∀ a b : List Char,
    charListLe a b = true ∨ charListLe b a = true
  | [], _ => Or.inl rfl
  | _ :: _, [] => Or.inr rfl
  | a :: as, b :: bs => by
    unfold charListLe
    rcases Nat.lt_trichotomy a.toNat b.toNat with h | h | h
    · left; simp [h]
    · have h1 : ¬a.toNat < b.toNat := by omega
      have h2 : ¬b.toNat < a.toNat := by omega
      simpa [h1, h2] using charListLe_total as bs
    · right; simp [h]

theorem charListLe_trans : ∀ a b c : List Char,
    charListLe a b = true → charListLe b c = true → charListLe a c = true
  | [], _, _, _, _ => rfl
  | _ :: _, [], _, hab, _ => by simp [charListLe] at hab
  | _ :: _, _ :: _, [], _, hbc => by simp [charListLe] at hbc
  | a :: as, b :: bs, c :: cs, hab, hbc => by
    simp only [charListLe] at hab hbc ⊢
    rcases Nat.lt_trichotomy a.toNat b.toNat with h1 | h1 | h1 <;>
      rcases Nat.lt_trichotomy b.toNat c.toNat with h2 | h2 | h2 <;>
        first
          | (simp only [show a.toNat < c.toNat by omega, if_true])
          | (exfalso; revert hab hbc; simp [h1, h2]; omega)
          | (have e1 : ¬a.toNat < c.toNat := by omega
             have e2 : ¬c.toNat < a.toNat := by omega
             have f1 : ¬a.toNat < b.toNat := by omega
             have f2 : ¬b.toNat < a.toNat := by omega
             have g1 : ¬b.toNat < c.toNat := by omega
             have g2 : ¬c.toNat < b.toNat := by omega
             simp only [e1, e2, f1, f2, g1, g2, if_false] at hab hbc ⊢
             exact charListLe_trans as bs cs hab hbc)

theorem strLe_total (a b : String) : strLe a b = true ∨ strLe b a = true :=
  charListLe_total a.data b.data

theorem strLe_trans (a b c : String) :
    strLe a b = true → strLe b c = true → strLe a c = true :=
  charListLe_trans a.data b.data c.data

theorem filter_decide_congr {α : Type} {p q : α → Prop} [DecidablePred p]
    [DecidablePred q] {l : List α} (h : ∀ a ∈ l, p a ↔ q a) :
    l.filter (fun a => decide (p a)) = l.filter (fun a => decide (q a)) :=
  List.filter_congr (fun a ha => decide_eq_decide.mpr (h a ha))

theorem map_sum_single {κ : Type} [DecidableEq κ] (h : κ → ℚ) (a : κ) :
    ∀ keys : List κ, keys.Nodup → (∀ x ∈ keys, x ≠ a → h x = 0) →
      (keys.map h).sum = if a ∈ keys then h a else 0
  | [], _, _ => by simp
  | k :: ks, hnd, hz => by
    rcases List.nodup_cons.mp hnd with ⟨hk, hnd⟩
    by_cases hka : k = a
    · subst hka
      have hzz : (ks.map h).sum = 0 := by
        refine List.sum_eq_zero ?_
        intro x hx
        rcases List.mem_map.mp hx with ⟨y, hy, rfl⟩
        exact hz y (List.mem_cons_of_mem _ hy) (fun e => hk (e ▸ hy))
      simp [hzz]
    · have h0 : h k = 0 := hz k (List.mem_cons_self k ks) hka
      have IH := map_sum_single h a ks hnd
        (fun x hx hxa => hz x (List.mem_cons_of_mem _ hx) hxa)
      have hne : a ≠ k := fun e => hka e.symm
      rw [List.map_cons, List.sum_cons, h0, zero_add, IH]
      simp [List.mem_cons, hne]

theorem sum_ite_mem {κ : Type} [DecidableEq κ] (S : κ → ℚ) (x : ℚ) (c : κ) :
    ∀ keys : List κ, keys.Nodup →
      (keys.map (fun k => if c = k then x + S k else S k)).sum
        = (if c ∈ keys then x else 0) + (keys.map S).sum
  | [], _ => by simp
  | k :: ks, hnd => by
    rcases List.nodup_cons.mp hnd with ⟨hk, hnd⟩
    by_cases hck : c = k
    · subst hck
      have htail : ks.map (fun k => if c = k then x + S k else S k) = ks.map S := by
        refine List.map_congr_left ?_
        intro y hy
        have : ¬c = y := fun e => hk (e ▸ hy)
        simp [this]
      simp only [List.map_cons, List.sum_cons, if_pos rfl, htail,
        List.mem_cons, true_or, if_true]
      ring
    · have IH := sum_ite_mem S x c ks hnd
      have hmem : (c ∈ k :: ks) = (c ∈ ks) := by simp [List.mem_cons, hck]
      simp only [List.map_cons, List.sum_cons, if_neg hck, IH, hmem]
      ring

theorem sum_over_keys {α κ : Type} [DecidableEq κ] (f : α → κ) (g : α → ℚ) :
    ∀ (l : List α) (keys : List κ), keys.Nodup → (∀ a ∈ l, f a ∈ keys) →
      (keys.map (fun k => ((l.filter (fun a => decide (f a = k))).map g).sum)).sum
        = (l.map g).sum
  | [], keys, _, _ => by simp
  | a :: l, keys, hnd, hc => by
    have ha : f a ∈ keys := hc a (List.mem_cons_self a l)
    have hl : ∀ x ∈ l, f x ∈ keys := fun x hx => hc x (List.mem_cons_of_mem _ hx)
    have hstep : keys.map (fun k =>
        (((a :: l).filter (fun x => decide (f x = k))).map g).sum)
        = keys.map (fun k => if f a = k then
            g a + ((l.filter (fun x => decide (f x = k))).map g).sum
          else ((l.filter (fun x => decide (f x = k))).map g).sum) := by
      refine List.map_congr_left ?_
      intro k _
      by_cases h : f a = k
      · simp [List.filter_cons, h]
      · simp [List.filter_cons, h]
    rw [hstep, sum_ite_mem _ _ _ keys hnd, if_pos ha,
      sum_over_keys f g l keys hnd hl, List.map_cons, List.sum_cons]

theorem sum_flatMap_map {α β : Type} (g : β → ℚ) :
    ∀ (l : List α) (f : α → List β),
      ((l.flatMap f).map g).sum = (l.map (fun a => ((f a).map g).sum)).sum
  | [], _ => rfl
  | a :: l, f => by
    simp [List.flatMap_cons, sum_flatMap_map g l f]

theorem valSum_map_num {α : Type} (g : α → ℚ) : ∀ l : List α,
    valSum (l.map (fun x => Val.num (g x))) = Val.num ((l.map g).sum)
  | [] => rfl
  | x :: l => by
    show Val.addV (Val.num (g x)) (valSum (l.map (fun x => Val.num (g x)))) = _
    rw [valSum_map_num g l]
    show Val.num (g x + (l.map g).sum) = _
    rw [List.map_cons, List.sum_cons]

theorem flatMap_eq_single {κ β : Type} [DecidableEq κ] (f : κ → List β) (a : κ) :
    ∀ keys : List κ, keys.Nodup → (∀ x ∈ keys, x ≠ a → f x = []) →
      keys.flatMap f = if a ∈ keys then f a else []
  | [], _, _ => rfl
  | k :: ks, hnd, hz => by
    rcases List.nodup_cons.mp hnd with ⟨hk, hnd⟩
    by_cases hka : k = a
    · subst hka
      have htail : ks.flatMap f = [] := by
        refine List.flatMap_eq_nil_iff.mpr ?_
        intro x hx
        exact hz x (List.mem_cons_of_mem _ hx) (fun e => hk (e ▸ hx))
      simp [List.flatMap_cons, htail]
    · have h0 : f k = [] := hz k (List.mem_cons_self k ks) hka
      have IH := flatMap_eq_single f a ks hnd
        (fun x hx hxa => hz x (List.mem_cons_of_mem _ hx) hxa)
      have hne : a ≠ k := fun e => hka e.symm
      rw [List.flatMap_cons, h0, List.nil_append, IH]
      simp [List.mem_cons, hne]

theorem filter_eq_single {κ : Type} [DecidableEq κ] (a : κ) :
    ∀ keys : List κ, keys.Nodup →
      keys.filter (fun x => decide (x = a)) = if a ∈ keys then [a] else []
  | [], _ => rfl
  | k :: ks, hnd => by
    rcases List.nodup_cons.mp hnd with ⟨hk, hnd⟩
    by_cases hka : k = a
    · subst hka
      have htail : ks.filter (fun x => decide (x = k)) = [] := by
        refine List.filter_eq_nil_iff.mpr ?_
        intro x hx
        simpa using fun e : x = k => hk (e ▸ hx)
      simp [List.filter_cons, htail]
    · have IH := filter_eq_single a ks hnd
      have hne : a ≠ k := fun e => hka e.symm
      simp only [List.filter_cons, decide_eq_true_eq, if_neg hka, IH]
      simp [List.mem_cons, hne]

theorem sum_eq_zero_all_zero {α : Type} (g : α → ℚ) : ∀ l : List α,
    (∀ x ∈ l, 0 ≤ g x) → (l.map g).sum = 0 → ∀ x ∈ l, g x = 0
  | [], _, _, x, hx => absurd hx (List.not_mem_nil x)
  | a :: l, hnn, hsum, x, hx => by
    rw [List.map_cons, List.sum_cons] at hsum
    have h1 : 0 ≤ g a := hnn a (List.mem_cons_self a l)
    have h2 : 0 ≤ ((l.map g).sum) := by
      refine List.sum_nonneg ?_
      intro y hy
      rcases List.mem_map.mp hy with ⟨z, hz, rfl⟩
      exact hnn z (List.mem_cons_of_mem _ hz)
    rcases List.mem_cons.mp hx with rfl | hx
    · linarith
    · exact sum_eq_zero_all_zero g l
        (fun y hy => hnn y (List.mem_cons_of_mem _ hy)) (by linarith) x hx

/-! Structural lemmas about the period-over-period delta pass. -/

theorem addDeltaCols_length : ∀ (p? : Option BaseStat) (l : List BaseStat),
    (addDeltaCols p? l).length = l.length
  | _, [] => rfl
  | _, b :: bs => by
    simp [addDeltaCols, addDeltaCols_length (some b) bs]

theorem addDeltaCols_map_period : ∀ (p? : Option BaseStat) (l : List BaseStat),
    (addDeltaCols p? l).map (·.period) = l.map (·.period)
  | _, [] => rfl
  | _, b :: bs => by
    simp [addDeltaCols, addDeltaCols_map_period (some b) bs]

theorem addDeltaCols_getD_revenue :
    ∀ (p? : Option BaseStat) (l : List BaseStat) (i : ℕ), i < l.length →
      ((addDeltaCols p? l).getD i dummyStat).revenue = (l.getD i dummyBase).revenue
  | _, [], i, h => absurd h (by simp)
  | _, _ :: _, 0, _ => rfl
  | _, b :: bs, i + 1, h => by
    simp only [addDeltaCols, List.getD_cons_succ]
    exact addDeltaCols_getD_revenue (some b) bs i (by simpa using h)

theorem addDeltaCols_getD_dRevenue :
    ∀ (p? : Option BaseStat) (l : List BaseStat) (i : ℕ), i + 1 < l.length →
      ((addDeltaCols p? l).getD (i + 1) dummyStat).dRevenue
        = pctChangeVal ((l.getD i dummyBase).revenue) ((l.getD (i + 1) dummyBase).revenue)
  | _, [], i, h => absurd h (by simp)
  | _, [_], 0, h => absurd h (by simp)
  | _, _ :: _ :: _, 0, _ => rfl
  | _, b :: bs, i + 1, h => by
    simp only [addDeltaCols, List.getD_cons_succ]
    exact addDeltaCols_getD_dRevenue (some b) bs i (by simpa using h)

theorem addDeltaCols_none_head : ∀ l : List BaseStat, 0 < l.length →
    ((addDeltaCols none l).getD 0 dummyStat).dRevenue = Val.nan
    ∧ ((addDeltaCols none l).getD 0 dummyStat).dVolume = Val.nan
    ∧ ((addDeltaCols none l).getD 0 dummyStat).dPrice = Val.nan
  | [], h => absurd h (by simp)
  | _ :: _, _ => ⟨rfl, rfl, rfl⟩

theorem pctChangeVal_num {p : ℚ} (v : ℚ) (h : p ≠ 0) :
    pctChangeVal p v = Val.num ((v / p - 1) * 100) := by
  simp [pctChangeVal, npDivVal, h, Val.sub1, Val.scale100, mul_comm]

theorem pctChangeVal_zero (v : ℚ) :
    pctChangeVal 0 v
      = (if v = 0 then Val.nan else if 0 < v then Val.pinf else Val.minf) := by
  by_cases hv : v = 0 <;> by_cases hv2 : 0 < v <;>
    simp [pctChangeVal, npDivVal, hv, hv2, Val.sub1, Val.scale100]

theorem segDeltaWalk_mem :
    ∀ (pr pv : Option Val) (L : List SegBase) (r : SegRow),
      r ∈ segDeltaWalk pr pv L →
      ∃ b ∈ L, r.period = b.period ∧ r.platform = b.platform ∧ r.seg = b.seg
        ∧ r.revenue = b.revenue ∧ r.volume = b.volume
        ∧ r.shareRev = b.shareRev ∧ r.shareVol = b.shareVol
  | _, _, [], r, hr => absurd hr (List.not_mem_nil r)
  | pr, pv, b :: bs, r, hr => by
    rcases List.mem_cons.mp hr with rfl | hr
    · exact ⟨b, List.mem_cons_self b bs, rfl, rfl, rfl, rfl, rfl, rfl, rfl⟩
    · rcases segDeltaWalk_mem _ _ bs r hr with ⟨c, hc, hfields⟩
      exact ⟨c, List.mem_cons_of_mem _ hc, hfields⟩

/-! Lemmas about the price segmenter. -/

theorem cutSegment_below : ∀ (bs : List ℚ) (a p : ℚ), p ≤ a →
    (a :: bs).Chain' (· < ·) → cutSegment (a :: bs) p = none
  | [], _, _, _, _ => rfl
  | b :: bs, a, p, hp, hc => by
    have hab : a < b := (List.chain'_cons.mp hc).1
    have hcb : (b :: bs).Chain' (· < ·) := (List.chain'_cons.mp hc).2
    have hno : ¬(a < p ∧ p ≤ b) := fun h => absurd h.1 (not_lt.mpr hp)
    simp only [cutSegment, if_neg hno]
    exact cutSegment_below bs b p (le_of_lt (lt_of_le_of_lt hp hab)) hcb

theorem cutSegment_above : ∀ (b : List ℚ) (p : ℚ), (∀ x ∈ b, x < p) →
    cutSegment b p = none
  | [], _, _ => rfl
  | [_], _, _ => rfl
  | a :: b :: bs, p, h => by
    have hb : b < p := h b (List.mem_cons_of_mem _ (List.mem_cons_self b bs))
    have hno : ¬(a < p ∧ p ≤ b) := fun hh =>
      absurd (lt_of_lt_of_le hb hh.2) (lt_irrefl b)
    simp only [cutSegment, if_neg hno]
    exact cutSegment_above (b :: bs) p (fun x hx => h x (List.mem_cons_of_mem _ hx))

theorem chain_le_getD : ∀ (c : ℚ) (bs : List ℚ), (c :: bs).Chain' (· < ·) →
    ∀ j, j < (c :: bs).length → c ≤ (c :: bs).getD j 0
  | _, _, _, 0, _ => le_refl _
  | _, [], _, j + 1, h => by simp at h
  | c, b :: bs, hc, j + 1, h => by
    have h1 : c < b := (List.chain'_cons.mp hc).1
    have h2 := chain_le_getD b bs (List.chain'_cons.mp hc).2 j (by simpa using h)
    simpa [List.getD_cons_succ] using le_trans (le_of_lt h1) h2

theorem cutSegment_hit : ∀ (b : List ℚ), b.Chain' (· < ·) →
    ∀ (p : ℚ) (i : ℕ), i + 1 < b.length →
      b.getD i 0 < p → p ≤ b.getD (i + 1) 0 →
      cutSegment b p = some (b.getD i 0, b.getD (i + 1) 0)
  | [], _, _, i, h, _, _ => absurd h (by simp)
  | [_], _, _, i, h, _, _ => by simp at h
  | a :: c :: rest, hch, p, 0, _, hlo, hhi => by
    simp only [List.getD_cons_zero, List.getD_cons_succ] at hlo hhi ⊢
    simp [cutSegment, hlo, hhi]
  | a :: c :: rest, hch, p, j + 1, h, hlo, hhi => by
    have hclt : c ≤ (c :: rest).getD j 0 := by
      refine chain_le_getD c rest (List.chain'_cons.mp hch).2 j ?_
      have := h
      simp only [List.length_cons] at this ⊢
      omega
    have hcp : c < p := lt_of_le_of_lt hclt (by simpa [List.getD_cons_succ] using hlo)
    have hno : ¬(a < p ∧ p ≤ c) := fun hh => absurd (lt_of_lt_of_le hcp hh.2) (lt_irrefl c)
    simp only [List.getD_cons_succ] at hlo hhi ⊢
    simp only [cutSegment, if_neg hno]
    exact cutSegment_hit (c :: rest) (List.chain'_cons.mp hch).2 p j
      (by simpa using h) hlo hhi

theorem periodStatsFor_getD_dRevenue (df : List SaleRec) (pl : String) (i : ℕ)
    (h : i + 1 < (periodStatsFor df pl).length) :
    ((periodStatsFor df pl).getD (i + 1) dummyStat).dRevenue
      = pctChangeVal (((periodStatsFor df pl).getD i dummyStat).revenue)
          (((periodStatsFor df pl).getD (i + 1) dummyStat).revenue) := by
  have h2 : i + 1 <
      (sortedBy basePeriodLe
        ((allStats df).filter (fun b => decide (b.platform = pl)))).length := by
    simpa [periodStatsFor, addDeltaCols_length] using h
  simp only [periodStatsFor]
  rw [addDeltaCols_getD_dRevenue _ _ i h2,
    addDeltaCols_getD_revenue _ _ i (by omega),
    addDeltaCols_getD_revenue _ _ (i + 1) h2]

theorem periodStatsFor_head_nan (df : List SaleRec) (pl : String)
    (h : 0 < (periodStatsFor df pl).length) :
    ((periodStatsFor df pl).getD 0 dummyStat).dRevenue = Val.nan
    ∧ ((periodStatsFor df pl).getD 0 dummyStat).dVolume = Val.nan
    ∧ ((periodStatsFor df pl).getD 0 dummyStat).dPrice = Val.nan := by
  have h2 : 0 <
      (sortedBy basePeriodLe
        ((allStats df).filter (fun b => decide (b.platform = pl)))).length := by
    simpa [periodStatsFor, addDeltaCols_length] using h
  simpa only [periodStatsFor] using addDeltaCols_none_head _ h2

/-! Claim theorems. -/

/-- C1 (corrected), counterexample: the table `dfBA` holds key "X" with
revenue 100 in period "B" and 150 in period "A", and the externally
supplied chronological order is ["B", "A"].  The claim then demands
delta +50 on the period-"A" row (the chronologically second period), but
`calculate_period_stats` consumes no external order: it string-sorts the
labels, so the "A" row comes first and its delta is undefined. -/
theorem calculate_period_stats_ignores_supplied_order :
    ((calculate_period_stats dfBA).filter
      (fun r => decide (r.platform = "X" ∧ r.period = "A"))).map (·.dRevenue)
      = [Val.nan]
    ∧ ((calculate_period_stats dfBA).filter
      (fun r => decide (r.platform = "X" ∧ r.period = "A"))).map (·.dRevenue)
      ≠ [Val.num 50] := by
  constructor <;> decide

/-- C1 (amended): the Period Delta Engine accepts no external period
order; per key it sorts the rows by ascending code-point lexicographic
order of the period label strings and attaches
`delta[i] = (value[i] / value[i-1] - 1) * 100` for every `i > 0`
(undefined at `i = 0`), so the spec's example holds exactly when the
labels' string order agrees with chronology. -/
theorem calculate_period_stats_sorts_by_label_and_attaches_deltas
    (df : List SaleRec) (pl : String) :
    ((periodStatsFor df pl).Pairwise (fun a b => strLe a.period b.period = true))
    ∧ (∀ i, i + 1 < (periodStatsFor df pl).length →
        ((periodStatsFor df pl).getD (i + 1) dummyStat).dRevenue
          = pctChangeVal (((periodStatsFor df pl).getD i dummyStat).revenue)
              (((periodStatsFor df pl).getD (i + 1) dummyStat).revenue))
    ∧ (∀ i, i + 1 < (periodStatsFor df pl).length →
        ((periodStatsFor df pl).getD i dummyStat).revenue ≠ 0 →
        ((periodStatsFor df pl).getD (i + 1) dummyStat).dRevenue
          = Val.num ((((periodStatsFor df pl).getD (i + 1) dummyStat).revenue
              / (((periodStatsFor df pl).getD i dummyStat).revenue) - 1) * 100)) := by
  refine ⟨?_, periodStatsFor_getD_dRevenue df pl, ?_⟩
  · have htot : ∀ a b : BaseStat,
        basePeriodLe a b = true ∨ basePeriodLe b a = true :=
      fun a b => strLe_total a.period b.period
    have htr : ∀ a b c : BaseStat, basePeriodLe a b = true →
        basePeriodLe b c = true → basePeriodLe a c = true :=
      fun a b c => strLe_trans a.period b.period c.period
    have hL := sortedBy_pairwise htot htr
      ((allStats df).filter (fun b => decide (b.platform = pl)))
    have h1 : ((sortedBy basePeriodLe
        ((allStats df).filter (fun b => decide (b.platform = pl)))).map
          (·.period)).Pairwise (fun a b => strLe a b = true) :=
      List.pairwise_map.mpr hL
    have h2 : ((periodStatsFor df pl).map (·.period)).Pairwise
        (fun a b => strLe a b = true) := by
      simpa only [periodStatsFor, addDeltaCols_map_period] using h1
    exact List.pairwise_map.mp h2
  · intro i hi hne
    rw [periodStatsFor_getD_dRevenue df pl i hi, pctChangeVal_num _ hne]

/-- Witness for C1: on the spec's example (revenues 100, 150, 90 in three
periods whose labels sort chronologically) the deltas are
[undefined, +50, -40], and the amended theorem applies at i = 0. -/
theorem calculate_period_stats_sorts_by_label_witness :
    ((periodStatsFor dfABC "X").map (·.dRevenue)
      = [Val.nan, Val.num 50, Val.num (-40)])
    ∧ (0 + 1 < (periodStatsFor dfABC "X").length
       ∧ ((periodStatsFor dfABC "X").getD (0 + 1) dummyStat).dRevenue
         = pctChangeVal (((periodStatsFor dfABC "X").getD 0 dummyStat).revenue)
             (((periodStatsFor dfABC "X").getD (0 + 1) dummyStat).revenue)) := by
  refine ⟨by with_unfolding_all decide, by with_unfolding_all decide, ?_⟩
  exact (calculate_period_stats_sorts_by_label_and_attaches_deltas
    dfABC "X").2.1 0 (by with_unfolding_all decide)

/-- C2 (corrected), counterexample: with boundaries [0, 100, 300] the
price 100 is assigned segment "0-100", not "100-300" as the claim
states — `pd.cut` bins are left-open and right-closed. -/
theorem cutSegment_price_100_counterexample :
    cutSegment [0, 100, 300] 100 = some (0, 100)
    ∧ cutSegment [0, 100, 300] 100 ≠ some (100, 300) := by
  constructor <;> decide

/-- C2 (amended): for every strictly increasing boundary list, the Price
Segmenter assigns the label "b[i]-b[i+1]" for the unique i with
b[i] < p ≤ b[i+1] (so p = b[k] maps to the last segment but p = b[0] maps
to no segment), and assigns an absent segment — never an error — when
p ≤ b[0] or p > b[k]. -/
theorem cutSegment_left_open_right_closed (b : List ℚ) (p : ℚ)
    (hmono : b.Chain' (· < ·)) :
    (∀ i, i + 1 < b.length → b.getD i 0 < p → p ≤ b.getD (i + 1) 0 →
      cutSegment b p = some (b.getD i 0, b.getD (i + 1) 0))
    ∧ (2 ≤ b.length → p ≤ b.getD 0 0 → cutSegment b p = none)
    ∧ (2 ≤ b.length → b.getD (b.length - 1) 0 < p → cutSegment b p = none) := by
  refine ⟨fun i h1 h2 h3 => cutSegment_hit b hmono p i h1 h2 h3, ?_, ?_⟩
  · intro hlen hp
    cases b with
    | nil => simp at hlen
    | cons a bs => exact cutSegment_below bs a p (by simpa using hp) hmono
  · intro hlen hlast
    refine cutSegment_above b p ?_
    intro x hx
    have hpw := List.chain'_iff_pairwise.mp hmono
    rcases List.mem_iff_getElem.mp hx with ⟨n, hn, rfl⟩
    have hm : b.length - 1 < b.length := by omega
    rw [List.getD_eq_getElem b 0 hm] at hlast
    by_cases hnm : n = b.length - 1
    · subst hnm
      exact hlast
    · have hlt : n < b.length - 1 := by omega
      exact lt_trans (List.pairwise_iff_getElem.mp hpw n (b.length - 1) hn hm hlt) hlast

/-- Witness for C2: boundaries [0, 100, 300] with price 300 land in the
last segment "100-300", and price 400 and price 0 get no segment. -/
theorem cutSegment_left_open_right_closed_witness :
    List.Chain' (· < ·) ([0, 100, 300] : List ℚ)
    ∧ cutSegment [0, 100, 300] 300 = some (100, 300)
    ∧ cutSegment [0, 100, 300] 400 = none
    ∧ cutSegment [0, 100, 300] 0 = none := by
  have hch : List.Chain' (· < ·) ([0, 100, 300] : List ℚ) := by
    norm_num [List.chain'_cons]
  refine ⟨hch, ?_, ?_, ?_⟩
  · exact ((cutSegment_left_open_right_closed [0, 100, 300] 300 hch).1
      1 (by decide) (by decide) (by decide)).trans (by decide)
  · exact (cutSegment_left_open_right_closed [0, 100, 300] 400 hch).2.2
      (by decide) (by decide)
  · exact (cutSegment_left_open_right_closed [0, 100, 300] 0 hch).2.1
      (by decide) (by decide)

/-- C5 (corrected), counterexample: key "X" has revenue 0 in period "A"
and 5 in period "B"; the claim demands an undefined delta on the "B" row
because the preceding value is zero, but `pct_change` produces +infinity
there. -/
theorem period_delta_zero_prev_counterexample :
    ((calculate_period_stats dfZeroFive).filter
      (fun r => decide (r.platform = "X" ∧ r.period = "A"))).map (·.revenue) = [0]
    ∧ ((calculate_period_stats dfZeroFive).filter
      (fun r => decide (r.platform = "X" ∧ r.period = "B"))).map (·.dRevenue)
      = [Val.pinf]
    ∧ Val.pinf ≠ Val.nan := by
  refine ⟨by with_unfolding_all decide, by with_unfolding_all decide, by decide⟩

/-- C5 (amended): for every group key the chronologically first row's
deltas are all undefined (NaN); when the immediately preceding value is
zero, division by zero still never raises — the delta is NaN when the
current value is also zero and a signed infinity otherwise. -/
theorem period_delta_first_undefined_zero_prev_nonfinite
    (df : List SaleRec) (pl : String) :
    (0 < (periodStatsFor df pl).length →
      ((periodStatsFor df pl).getD 0 dummyStat).dRevenue = Val.nan
      ∧ ((periodStatsFor df pl).getD 0 dummyStat).dVolume = Val.nan
      ∧ ((periodStatsFor df pl).getD 0 dummyStat).dPrice = Val.nan)
    ∧ (∀ i, i + 1 < (periodStatsFor df pl).length →
        ((periodStatsFor df pl).getD i dummyStat).revenue = 0 →
        ((periodStatsFor df pl).getD (i + 1) dummyStat).dRevenue
          = (if ((periodStatsFor df pl).getD (i + 1) dummyStat).revenue = 0
             then Val.nan
             else if 0 < ((periodStatsFor df pl).getD (i + 1) dummyStat).revenue
             then Val.pinf else Val.minf)) := by
  refine ⟨periodStatsFor_head_nan df pl, ?_⟩
  intro i hi hz
  rw [periodStatsFor_getD_dRevenue df pl i hi, hz, pctChangeVal_zero]

/-- Witness for C5: applying the amended theorem to `dfZeroFive` — the
first row's delta is NaN and the second row's delta, after a zero
predecessor, is +infinity. -/
theorem period_delta_first_undefined_witness :
    ((periodStatsFor dfZeroFive "X").getD 0 dummyStat).dRevenue = Val.nan
    ∧ ((periodStatsFor dfZeroFive "X").getD (0 + 1) dummyStat).dRevenue
      = Val.pinf := by
  constructor
  · exact ((period_delta_first_undefined_zero_prev_nonfinite dfZeroFive "X").1
      (by with_unfolding_all decide)).1
  · have h := (period_delta_first_undefined_zero_prev_nonfinite dfZeroFive "X").2
      0 (by with_unfolding_all decide) (by with_unfolding_all decide)
    rw [h]
    with_unfolding_all decide

theorem sum_filter_zero_of_zero {α : Type} (g : α → ℚ) (l : List α)
    (P Q : α → Prop) [DecidablePred P] [DecidablePred Q]
    (himp : ∀ a, Q a → P a) (hnn : ∀ a ∈ l, 0 ≤ g a)
    (hT : ((l.filter (fun a => decide (P a))).map g).sum = 0) :
    ((l.filter (fun a => decide (Q a))).map g).sum = 0 := by
  have hz := sum_eq_zero_all_zero g (l.filter (fun a => decide (P a)))
    (fun x hx => hnn x (List.mem_filter.mp hx).1) hT
  refine List.sum_eq_zero ?_
  intro v hv
  rcases List.mem_map.mp hv with ⟨r, hr, rfl⟩
  rcases List.mem_filter.mp hr with ⟨hrl, hcond⟩
  exact hz r (List.mem_filter.mpr
    ⟨hrl, decide_eq_true (himp r (of_decide_eq_true hcond))⟩)

theorem mem_brandKeys_origin (df : List SaleRec) (k : String × String × String)
    (hk : k ∈ brandKeys df) :
    ∃ r ∈ df, r.period = k.1 ∧ r.platform = k.2.1 ∧ r.brand = some k.2.2 := by
  rcases List.mem_filterMap.mp (List.mem_dedup.mp hk) with ⟨r, hr, heq⟩
  rcases Option.map_eq_some'.mp heq with ⟨b, hb, hkey⟩
  refine ⟨r, hr, ?_, ?_, ?_⟩
  · rw [← hkey]
  · rw [← hkey]
  · rw [← hkey]
    exact hb

theorem allSegStats_seg_observed (df : List SaleRec) (ranges : List ℚ) :
    ∀ b ∈ allSegStats df ranges, ∃ r ∈ df, cutSegment ranges r.price = some b.seg := by
  intro b hb
  rcases List.mem_append.mp hb with h | h
  · rcases List.mem_map.mp h with ⟨k, hk, rfl⟩
    rcases List.mem_filterMap.mp (List.mem_dedup.mp hk) with ⟨r, hr, heq⟩
    rcases Option.map_eq_some'.mp heq with ⟨s, hs, hkey⟩
    refine ⟨r, hr, ?_⟩
    have hseg : (segBaseFor df ranges k).seg = k.2.2 := rfl
    rw [hseg, ← hkey]
    exact hs
  · rcases List.mem_map.mp h with ⟨k, hk, rfl⟩
    rcases List.mem_filterMap.mp (List.mem_dedup.mp hk) with ⟨r, hr, heq⟩
    rcases Option.map_eq_some'.mp heq with ⟨s, hs, hkey⟩
    refine ⟨r, hr, ?_⟩
    have hseg : (allSegBaseFor df ranges k).seg = k.2 := rfl
    rw [hseg, ← hkey]
    exact hs

theorem analyze_price_segments_mem (df : List SaleRec) (ranges : List ℚ) :
    ∀ row ∈ analyze_price_segments df ranges,
      ∃ b ∈ allSegStats df ranges, row.period = b.period
        ∧ row.platform = b.platform ∧ row.seg = b.seg
        ∧ row.revenue = b.revenue ∧ row.volume = b.volume
        ∧ row.shareRev = b.shareRev ∧ row.shareVol = b.shareVol := by
  intro row hrow
  simp only [analyze_price_segments] at hrow
  rcases List.mem_flatMap.mp hrow with ⟨pl, _, h1⟩
  rcases List.mem_flatMap.mp h1 with ⟨sg, _, h2⟩
  rcases segDeltaWalk_mem _ _ _ row h2 with ⟨b, hb, hf⟩
  exact ⟨b,
    (List.mem_filter.mp (List.mem_filter.mp (mem_sortedBy.mp hb)).1).1, hf⟩

/-- C4 (corrected), counterexample: a stratum whose parent total is zero
(single record with revenue 0) makes every share NaN, not 0, because the
numpy division `0 / 0` has no zero guard in `calculate_brand_share`. -/
theorem brand_share_zero_total_counterexample :
    ppTotalRev dfZero "A" "X" = 0
    ∧ ((calculate_brand_share dfZero).map (·.shareRev)) = [Val.nan, Val.nan]
    ∧ Val.nan ≠ Val.num 0 := by
  refine ⟨by with_unfolding_all decide, by with_unfolding_all decide, by decide⟩

/-- C4 (amended): the Share Calculator never raises and never produces an
infinity on non-negative data, but a zero parent total yields NaN (not 0):
each brand row whose (period, platform) stratum total is zero — or whose
period total is zero, for the all-platforms rollup rows — carries a NaN
share.  Rows whose finest dimension is absent are not assigned a share of
0: they are dropped from the segment aggregates entirely (every segment
row's segment is witnessed by an in-segment record), which is what
excludes them from the iteration sets used for ranking. -/
theorem share_zero_parent_total_gives_nan (df : List SaleRec) (ranges : List ℚ)
    (hALL : ∀ r ∈ df, r.platform ≠ ALL)
    (hnnRev : ∀ r ∈ df, 0 ≤ r.revenue)
    (hnnVol : ∀ r ∈ df, 0 ≤ r.volume) :
    (∀ row ∈ calculate_brand_share df,
      (ppTotalRev df row.period row.platform = 0 → row.platform ≠ ALL →
        row.shareRev = Val.nan)
      ∧ (ppTotalVol df row.period row.platform = 0 → row.platform ≠ ALL →
        row.shareVol = Val.nan)
      ∧ (pTotalRev df row.period = 0 → row.platform = ALL →
        row.shareRev = Val.nan)
      ∧ (pTotalVol df row.period = 0 → row.platform = ALL →
        row.shareVol = Val.nan))
    ∧ (∀ row ∈ analyze_price_segments df ranges,
        ∃ r ∈ df, cutSegment ranges r.price = some row.seg) := by
  constructor
  · intro row hrow
    simp only [calculate_brand_share] at hrow
    rcases List.mem_append.mp hrow with h | h
    · rcases List.mem_map.mp h with ⟨k, hk, rfl⟩
      have hper : (brandRowFor df k).period = k.1 := rfl
      have hplat : (brandRowFor df k).platform = k.2.1 := rfl
      have hnotall : k.2.1 ≠ ALL := by
        rcases mem_brandKeys_origin df k hk with ⟨r, hr, _, hp, _⟩
        exact hp ▸ hALL r hr
      refine ⟨?_, ?_, ?_, ?_⟩
      · intro hT _
        rw [hper, hplat] at hT
        have hT2 : ((df.filter (fun r =>
            decide (r.period = k.1 ∧ r.platform = k.2.1))).map
              (fun r : SaleRec => r.revenue)).sum = 0 := hT
        have h0m : ((df.filter (fun r =>
            decide (r.period = k.1 ∧ r.platform = k.2.1 ∧ r.brand = some k.2.2))).map
              (fun r : SaleRec => r.revenue)).sum = 0 :=
          sum_filter_zero_of_zero (fun r : SaleRec => r.revenue) df
            (fun r => r.period = k.1 ∧ r.platform = k.2.1)
            (fun r => r.period = k.1 ∧ r.platform = k.2.1 ∧ r.brand = some k.2.2)
            (fun a ha => ⟨ha.1, ha.2.1⟩) hnnRev hT2
        have h0 : sumRev (df.filter (fun r =>
            decide (r.period = k.1 ∧ r.platform = k.2.1 ∧ r.brand = some k.2.2))) = 0 := h0m
        show (npDivVal (sumRev _) (ppTotalRev df k.1 k.2.1)).scale100 = Val.nan
        rw [h0, hT]
        simp [npDivVal, Val.scale100]
      · intro hT _
        rw [hper, hplat] at hT
        have hT2 : ((df.filter (fun r =>
            decide (r.period = k.1 ∧ r.platform = k.2.1))).map
              (fun r : SaleRec => r.volume)).sum = 0 := hT
        have h0m : ((df.filter (fun r =>
            decide (r.period = k.1 ∧ r.platform = k.2.1 ∧ r.brand = some k.2.2))).map
              (fun r : SaleRec => r.volume)).sum = 0 :=
          sum_filter_zero_of_zero (fun r : SaleRec => r.volume) df
            (fun r => r.period = k.1 ∧ r.platform = k.2.1)
            (fun r => r.period = k.1 ∧ r.platform = k.2.1 ∧ r.brand = some k.2.2)
            (fun a ha => ⟨ha.1, ha.2.1⟩) hnnVol hT2
        have h0 : sumVol (df.filter (fun r =>
            decide (r.period = k.1 ∧ r.platform = k.2.1 ∧ r.brand = some k.2.2))) = 0 := h0m
        show (npDivVal (sumVol _) (ppTotalVol df k.1 k.2.1)).scale100 = Val.nan
        rw [h0, hT]
        simp [npDivVal, Val.scale100]
      · intro _ hAll
        exact absurd (hplat.symm.trans hAll) hnotall
      · intro _ hAll
        exact absurd (hplat.symm.trans hAll) hnotall
    · rcases List.mem_map.mp h with ⟨k, hk, rfl⟩
      have hper : (allBrandRowFor df k).period = k.1 := rfl
      have hplat : (allBrandRowFor df k).platform = ALL := rfl
      refine ⟨?_, ?_, ?_, ?_⟩
      · intro _ hne
        exact absurd hplat hne
      · intro _ hne
        exact absurd hplat hne
      · intro hT _
        rw [hper] at hT
        have hT2 : ((df.filter (fun r =>
            decide (r.period = k.1))).map (fun r : SaleRec => r.revenue)).sum = 0 := hT
        have h0m : ((df.filter (fun r =>
            decide (r.period = k.1 ∧ r.brand = some k.2))).map
              (fun r : SaleRec => r.revenue)).sum = 0 :=
          sum_filter_zero_of_zero (fun r : SaleRec => r.revenue) df
            (fun r => r.period = k.1)
            (fun r => r.period = k.1 ∧ r.brand = some k.2)
            (fun a ha => ha.1) hnnRev hT2
        have h0 : sumRev (df.filter (fun r =>
            decide (r.period = k.1 ∧ r.brand = some k.2))) = 0 := h0m
        show (npDivVal (sumRev _) (pTotalRev df k.1)).scale100 = Val.nan
        rw [h0, hT]
        simp [npDivVal, Val.scale100]
      · intro hT _
        rw [hper] at hT
        have hT2 : ((df.filter (fun r =>
            decide (r.period = k.1))).map (fun r : SaleRec => r.volume)).sum = 0 := hT
        have h0m : ((df.filter (fun r =>
            decide (r.period = k.1 ∧ r.brand = some k.2))).map
              (fun r : SaleRec => r.volume)).sum = 0 :=
          sum_filter_zero_of_zero (fun r : SaleRec => r.volume) df
            (fun r => r.period = k.1)
            (fun r => r.period = k.1 ∧ r.brand = some k.2)
            (fun a ha => ha.1) hnnVol hT2
        have h0 : sumVol (df.filter (fun r =>
            decide (r.period = k.1 ∧ r.brand = some k.2))) = 0 := h0m
        show (npDivVal (sumVol _) (pTotalVol df k.1)).scale100 = Val.nan
        rw [h0, hT]
        simp [npDivVal, Val.scale100]
  · intro row hrow
    rcases analyze_price_segments_mem df ranges row hrow with ⟨b, hb, _, _, hseg, _⟩
    rcases allSegStats_seg_observed df ranges b hb with ⟨r, hr, hcut⟩
    exact ⟨r, hr, hseg ▸ hcut⟩

/-- Witness for C4: on `dfZero` (one record, revenue 0) the per-platform
brand row's stratum total is zero and its revenue share is NaN. -/
theorem share_zero_parent_total_witness :
    ppTotalRev dfZero "A" "X" = 0
    ∧ (brandRowFor dfZero ("A", "X", "b")).shareRev = Val.nan := by
  refine ⟨by with_unfolding_all decide, ?_⟩
  exact (((share_zero_parent_total_gives_nan dfZero [] (by decide)
    (by decide) (by decide)).1 (brandRowFor dfZero ("A", "X", "b"))
    (by with_unfolding_all decide)).1 (by with_unfolding_all decide) (by decide))

theorem addDeltaCols_mem :
    ∀ (p? : Option BaseStat) (l : List BaseStat) (r : StatRow),
      r ∈ addDeltaCols p? l →
      ∃ b ∈ l, r.period = b.period ∧ r.platform = b.platform ∧ r.revenue = b.revenue
  | _, [], r, hr => absurd hr (List.not_mem_nil r)
  | p?, b :: bs, r, hr => by
    rcases List.mem_cons.mp hr with rfl | hr
    · exact ⟨b, List.mem_cons_self b bs, rfl, rfl, rfl⟩
    · rcases addDeltaCols_mem (some b) bs r hr with ⟨c, hc, hf⟩
      exact ⟨c, List.mem_cons_of_mem _ hc, hf⟩

theorem mem_periodPlatformKeys_origin (df : List SaleRec) (k : String × String)
    (hk : k ∈ periodPlatformKeys df) :
    ∃ r ∈ df, r.period = k.1 ∧ r.platform = k.2 := by
  rcases List.mem_map.mp (List.mem_dedup.mp hk) with ⟨r, hr, heq⟩
  refine ⟨r, hr, ?_, ?_⟩ <;> rw [← heq]

theorem mem_periodBrandKeys_iff (df : List SaleRec) (pe b : String) :
    (pe, b) ∈ periodBrandKeys df ↔ ∃ r ∈ df, r.period = pe ∧ r.brand = some b := by
  constructor
  · intro h
    rcases List.mem_filterMap.mp (List.mem_dedup.mp h) with ⟨r, hr, heq⟩
    rcases Option.map_eq_some'.mp heq with ⟨x, hx, hkey⟩
    refine ⟨r, hr, ?_, ?_⟩
    · have := congrArg Prod.fst hkey
      simpa using this
    · have := congrArg Prod.snd hkey
      simp only at this
      rw [hx, this]
  · rintro ⟨r, hr, h1, h2⟩
    refine List.mem_dedup.mpr (List.mem_filterMap.mpr ⟨r, hr, ?_⟩)
    rw [h1, h2]
    rfl

theorem brandRows_platform_ne_ALL (df : List SaleRec)
    (hALL : ∀ r ∈ df, r.platform ≠ ALL) :
    ∀ row ∈ (brandKeys df).map (brandRowFor df), row.platform ≠ ALL := by
  intro row hrow
  rcases List.mem_map.mp hrow with ⟨k, hk, rfl⟩
  rcases mem_brandKeys_origin df k hk with ⟨r, hr, _, hp, _⟩
  show k.2.1 ≠ ALL
  exact hp ▸ hALL r hr

theorem allBrandRows_platform (df : List SaleRec) :
    ∀ row ∈ (periodBrandKeys df).map (allBrandRowFor df), row.platform = ALL := by
  intro row hrow
  rcases List.mem_map.mp hrow with ⟨k, _, rfl⟩
  rfl

theorem decide_and_decide {p q : Prop} [Decidable p] [Decidable q] :
    (decide p && decide q) = decide (p ∧ q) := by
  by_cases hp : p <;> by_cases hq : q <;> simp [hp, hq]

/-- C3 (corrected), counterexample: two platforms with revenue 0.004 each
in the same period.  Both per-platform rows round to 0.00 while the
rollup row holds round2(0.008) = 0.01, so the rollup's revenue differs
from the sum of the per-platform rows in the period-statistics table. -/
theorem period_stats_rollup_rounding_counterexample :
    (((calculate_period_stats dfRound).filter (fun r =>
      decide (r.period = "A" ∧ r.platform ≠ ALL))).map (·.revenue)).sum = 0
    ∧ (((calculate_period_stats dfRound).filter (fun r =>
      decide (r.period = "A" ∧ r.platform = ALL))).map (·.revenue)).sum = 1 / 100
    ∧ (0 : ℚ) ≠ 1 / 100 := by
  refine ⟨by with_unfolding_all decide, by with_unfolding_all decide,
    by with_unfolding_all decide⟩

/-- C3 (amended): in the brand-share table the "all platforms" rollup
row's summed revenue equals the sum of the per-platform rows of the same
(period, brand) stratum exactly; in the period-statistics table both
sides are rounded to two decimals independently, so the rollup row equals
the rounding of the stratum's exact total (which can differ from the sum
of the already-rounded per-platform rows). -/
theorem rollup_revenue_consistency (df : List SaleRec) (pe b : String)
    (hALL : ∀ r ∈ df, r.platform ≠ ALL) :
    ((((calculate_brand_share df).filter (fun r =>
        decide (r.period = pe ∧ r.brand = b ∧ r.platform ≠ ALL))).map
          (·.revenue)).sum
      = (((calculate_brand_share df).filter (fun r =>
        decide (r.period = pe ∧ r.brand = b ∧ r.platform = ALL))).map
          (·.revenue)).sum)
    ∧ (∀ row ∈ calculate_period_stats df, row.platform = ALL →
        row.revenue
          = round2 (sumRev (df.filter (fun r => decide (r.period = row.period))))) := by
  constructor
  · have hsplit : calculate_brand_share df
        = (brandKeys df).map (brandRowFor df)
          ++ (periodBrandKeys df).map (allBrandRowFor df) := rfl
    rw [hsplit, List.filter_append, List.filter_append, List.map_append,
      List.map_append, List.sum_append, List.sum_append]
    have hBnil : ((periodBrandKeys df).map (allBrandRowFor df)).filter
        (fun r => decide (r.period = pe ∧ r.brand = b ∧ r.platform ≠ ALL)) = [] := by
      refine List.filter_eq_nil_iff.mpr ?_
      intro row hrow
      rw [decide_eq_true_eq]
      rintro ⟨-, -, hne⟩
      exact hne (allBrandRows_platform df row hrow)
    have hAnil : ((brandKeys df).map (brandRowFor df)).filter
        (fun r => decide (r.period = pe ∧ r.brand = b ∧ r.platform = ALL)) = [] := by
      refine List.filter_eq_nil_iff.mpr ?_
      intro row hrow
      rw [decide_eq_true_eq]
      rintro ⟨-, -, hne⟩
      exact brandRows_platform_ne_ALL df hALL row hrow hne
    rw [hBnil, hAnil]
    simp only [List.map_nil, List.sum_nil, add_zero, zero_add]
    have hAfilter : ((brandKeys df).map (brandRowFor df)).filter
        (fun r => decide (r.period = pe ∧ r.brand = b ∧ r.platform ≠ ALL))
        = ((brandKeys df).filter (fun k =>
            decide (k.1 = pe ∧ k.2.2 = b ∧ k.2.1 ≠ ALL))).map (brandRowFor df) := by
      rw [List.filter_map]
      rfl
    have hBfilter : ((periodBrandKeys df).map (allBrandRowFor df)).filter
        (fun r => decide (r.period = pe ∧ r.brand = b ∧ r.platform = ALL))
        = ((periodBrandKeys df).filter (fun k => decide (k = (pe, b)))).map
            (allBrandRowFor df) := by
      rw [List.filter_map]
      congr 1
      refine List.filter_congr ?_
      intro k _
      refine decide_eq_decide.mpr ?_
      constructor
      · rintro ⟨h1, h2, -⟩
        exact Prod.ext h1 h2
      · rintro rfl
        exact ⟨rfl, rfl, rfl⟩
    rw [hAfilter, hBfilter, List.map_map, List.map_map]
    by_cases hmem : (pe, b) ∈ periodBrandKeys df
    · rw [filter_eq_single (pe, b) (periodBrandKeys df)
        (List.nodup_dedup _), if_pos hmem]
      have hR : (([(pe, b)].map ((fun r : BrandRow => r.revenue) ∘ allBrandRowFor df))).sum
          = sumRev (df.filter (fun r => decide (r.period = pe ∧ r.brand = some b))) := by
        show (allBrandRowFor df (pe, b)).revenue + 0 = _
        rw [add_zero]
        rfl
      rw [hR]
      have hLmap : ((brandKeys df).filter (fun k =>
            decide (k.1 = pe ∧ k.2.2 = b ∧ k.2.1 ≠ ALL))).map
              ((fun r : BrandRow => r.revenue) ∘ brandRowFor df)
          = ((brandKeys df).filter (fun k =>
            decide (k.1 = pe ∧ k.2.2 = b ∧ k.2.1 ≠ ALL))).map (fun k =>
              (((df.filter (fun r => decide (r.period = pe ∧ r.brand = some b))).filter
                (fun a => decide ((a.period, a.platform, a.brand.getD "") = k))).map
                  (fun a : SaleRec => a.revenue)).sum) := by
        refine List.map_congr_left ?_
        intro k hkf
        rcases List.mem_filter.mp hkf with ⟨hk, hq⟩
        rw [decide_eq_true_eq] at hq
        rcases hq with ⟨hq1, hq2, hq3⟩
        show (brandRowFor df k).revenue = _
        have hfe : (df.filter (fun r =>
            decide (r.period = pe ∧ r.brand = some b))).filter
              (fun a => decide ((a.period, a.platform, a.brand.getD "") = k))
            = df.filter (fun r =>
              decide (r.period = k.1 ∧ r.platform = k.2.1 ∧ r.brand = some k.2.2)) := by
          rw [List.filter_filter]
          refine List.filter_congr ?_
          intro a _
          rw [decide_and_decide]
          refine decide_eq_decide.mpr ?_
          constructor
          · rintro ⟨hkey, hpe2, hb2⟩
            refine ⟨?_, ?_, ?_⟩
            · rw [hpe2, hq1]
            · rw [← congrArg (fun t => t.2.1) hkey]
            · have h22 := congrArg (fun t => t.2.2) hkey
              simp only at h22
              have hgd : a.brand.getD "" = b := by
                rw [hb2]
                rfl
              rw [hgd] at h22
              rw [hb2, h22]
          · rintro ⟨ha1, ha2, ha3⟩
            have hgd : a.brand.getD "" = k.2.2 := by
              rw [ha3]
              rfl
            refine ⟨?_, ha1.trans hq1, ?_⟩
            · rw [ha1, ha2, hgd, hq1]
              exact Prod.ext hq1.symm rfl
            · rw [ha3, hq2]
        rw [hfe]
        rfl
      rw [hLmap]
      refine sum_over_keys (fun a : SaleRec => (a.period, a.platform, a.brand.getD ""))
        (fun a : SaleRec => a.revenue) _ _
        ((List.nodup_dedup _).filter _) ?_
      intro a ha
      rcases List.mem_filter.mp ha with ⟨hadf, hacond⟩
      rw [decide_eq_true_eq] at hacond
      rcases hacond with ⟨hape, hab⟩
      have hgd : a.brand.getD "" = b := by
        rw [hab]
        rfl
      show (a.period, a.platform, a.brand.getD "") ∈ _
      rw [hape, hgd]
      refine List.mem_filter.mpr ⟨?_, ?_⟩
      · refine List.mem_dedup.mpr (List.mem_filterMap.mpr ⟨a, hadf, ?_⟩)
        rw [hab]
        simp only [Option.map_some']
        rw [hape]
      · rw [decide_eq_true_eq]
        exact ⟨rfl, rfl, hALL a hadf⟩
    · rw [filter_eq_single (pe, b) (periodBrandKeys df)
        (List.nodup_dedup _), if_neg hmem]
      have hKnil : (brandKeys df).filter (fun k =>
          decide (k.1 = pe ∧ k.2.2 = b ∧ k.2.1 ≠ ALL)) = [] := by
        refine List.filter_eq_nil_iff.mpr ?_
        intro k hk
        rw [decide_eq_true_eq]
        rintro ⟨h1, h2, -⟩
        rcases mem_brandKeys_origin df k hk with ⟨r, hr, hr1, _, hr3⟩
        exact hmem ((mem_periodBrandKeys_iff df pe b).mpr
          ⟨r, hr, hr1.trans h1, by rw [hr3, h2]⟩)
      rw [hKnil]
      simp
  · intro row hrow hall
    simp only [calculate_period_stats, periodStatsFor] at hrow
    rcases List.mem_flatMap.mp hrow with ⟨pl, _, h1⟩
    rcases addDeltaCols_mem _ _ row h1 with ⟨bs, hbs, hf1, hf2, hf3⟩
    have hbs2 := mem_sortedBy.mp hbs
    rcases List.mem_filter.mp hbs2 with ⟨hbs3, -⟩
    rcases List.mem_append.mp hbs3 with h | h
    · rcases List.mem_map.mp h with ⟨k, hk, rfl⟩
      rcases mem_periodPlatformKeys_origin df k hk with ⟨r, hr, _, hp⟩
      exact absurd (hf2.symm.trans hall) (hp ▸ hALL r hr)
    · rcases List.mem_map.mp h with ⟨k, hk, rfl⟩
      rw [hf3, hf1]
      rfl

/-- Witness for C3: on `dfTop` the brand "b1" has revenue 10 on platform
"X" and 5 on "Y" in period "A"; the rollup row holds 15 and the amended
theorem's brand-table equality applies. -/
theorem rollup_revenue_consistency_witness :
    ((((calculate_brand_share dfTop).filter (fun r =>
        decide (r.period = "A" ∧ r.brand = "b1" ∧ r.platform ≠ ALL))).map
          (·.revenue)).sum
      = (((calculate_brand_share dfTop).filter (fun r =>
        decide (r.period = "A" ∧ r.brand = "b1" ∧ r.platform = ALL))).map
          (·.revenue)).sum)
    ∧ (((calculate_brand_share dfTop).filter (fun r =>
        decide (r.period = "A" ∧ r.brand = "b1" ∧ r.platform = ALL))).map
          (·.revenue)).sum = 15 := by
  refine ⟨(rollup_revenue_consistency dfTop "A" "b1" (by decide)).1, ?_⟩
  with_unfolding_all decide

theorem sum_brand_revenue_partition (df : List SaleRec) (pe pl : String) :
    (((brandKeys df).filter (fun k => decide (k.1 = pe ∧ k.2.1 = pl))).map (fun k =>
      sumRev (df.filter (fun r =>
        decide (r.period = k.1 ∧ r.platform = k.2.1 ∧ r.brand = some k.2.2))))).sum
    = sumRev (df.filter (fun r =>
        decide (r.period = pe ∧ r.platform = pl ∧ r.brand ≠ none))) := by
  have hmapeq : ((brandKeys df).filter (fun k =>
        decide (k.1 = pe ∧ k.2.1 = pl))).map (fun k =>
          sumRev (df.filter (fun r =>
            decide (r.period = k.1 ∧ r.platform = k.2.1 ∧ r.brand = some k.2.2))))
      = ((brandKeys df).filter (fun k => decide (k.1 = pe ∧ k.2.1 = pl))).map (fun k =>
          (((df.filter (fun r =>
            decide (r.period = pe ∧ r.platform = pl ∧ r.brand ≠ none))).filter
              (fun a => decide ((a.period, a.platform, a.brand.getD "") = k))).map
                (fun a : SaleRec => a.revenue)).sum) := by
    refine List.map_congr_left ?_
    intro k hkf
    rcases List.mem_filter.mp hkf with ⟨hk, hq⟩
    rw [decide_eq_true_eq] at hq
    have hfe : (df.filter (fun r =>
        decide (r.period = pe ∧ r.platform = pl ∧ r.brand ≠ none))).filter
          (fun a => decide ((a.period, a.platform, a.brand.getD "") = k))
        = df.filter (fun r =>
          decide (r.period = k.1 ∧ r.platform = k.2.1 ∧ r.brand = some k.2.2)) := by
      rw [List.filter_filter]
      refine List.filter_congr ?_
      intro a _
      rw [decide_and_decide]
      refine decide_eq_decide.mpr ?_
      constructor
      · rintro ⟨hkey, -, -, hbne⟩
        rcases Option.ne_none_iff_exists'.mp hbne with ⟨x, hx⟩
        have h1 := congrArg (fun t : String × String × String => t.1) hkey
        have h21 := congrArg (fun t : String × String × String => t.2.1) hkey
        have h22 := congrArg (fun t : String × String × String => t.2.2) hkey
        simp only at h1 h21 h22
        have hgd : a.brand.getD "" = x := by
          rw [hx]
          rfl
        exact ⟨h1, h21, by rw [hx, ← h22, hgd]⟩
      · rintro ⟨ha1, ha2, ha3⟩
        have hgd : a.brand.getD "" = k.2.2 := by
          rw [ha3]
          rfl
        refine ⟨?_, ha1.trans hq.1, ha2.trans hq.2, ?_⟩
        · rw [ha1, ha2, hgd]
        · rw [ha3]
          exact Option.some_ne_none _
    rw [hfe]
    rfl
  rw [hmapeq]
  refine Eq.trans (sum_over_keys
    (fun a : SaleRec => (a.period, a.platform, a.brand.getD ""))
    (fun a : SaleRec => a.revenue) _ _
    ((List.nodup_dedup _).filter _) ?_) rfl
  intro a ha
  rcases List.mem_filter.mp ha with ⟨hadf, hacond⟩
  rw [decide_eq_true_eq] at hacond
  rcases hacond with ⟨hape, hapl, habne⟩
  rcases Option.ne_none_iff_exists'.mp habne with ⟨x, hx⟩
  have hgd : a.brand.getD "" = x := by
    rw [hx]
    rfl
  show (a.period, a.platform, a.brand.getD "") ∈ _
  rw [hape, hapl, hgd]
  refine List.mem_filter.mpr ⟨?_, ?_⟩
  · refine List.mem_dedup.mpr (List.mem_filterMap.mpr ⟨a, hadf, ?_⟩)
    rw [hx]
    simp only [Option.map_some']
    rw [hape, hapl]
  · rw [decide_eq_true_eq]
    exact ⟨rfl, rfl⟩

theorem sum_pbrand_revenue_partition (df : List SaleRec) (pe : String) :
    (((periodBrandKeys df).filter (fun k => decide (k.1 = pe))).map (fun k =>
      sumRev (df.filter (fun r =>
        decide (r.period = k.1 ∧ r.brand = some k.2))))).sum
    = sumRev (df.filter (fun r => decide (r.period = pe ∧ r.brand ≠ none))) := by
  have hmapeq : ((periodBrandKeys df).filter (fun k => decide (k.1 = pe))).map (fun k =>
        sumRev (df.filter (fun r => decide (r.period = k.1 ∧ r.brand = some k.2))))
      = ((periodBrandKeys df).filter (fun k => decide (k.1 = pe))).map (fun k =>
          (((df.filter (fun r => decide (r.period = pe ∧ r.brand ≠ none))).filter
              (fun a => decide ((a.period, a.brand.getD "") = k))).map
                (fun a : SaleRec => a.revenue)).sum) := by
    refine List.map_congr_left ?_
    intro k hkf
    rcases List.mem_filter.mp hkf with ⟨hk, hq⟩
    rw [decide_eq_true_eq] at hq
    have hfe : (df.filter (fun r =>
        decide (r.period = pe ∧ r.brand ≠ none))).filter
          (fun a => decide ((a.period, a.brand.getD "") = k))
        = df.filter (fun r => decide (r.period = k.1 ∧ r.brand = some k.2)) := by
      rw [List.filter_filter]
      refine List.filter_congr ?_
      intro a _
      rw [decide_and_decide]
      refine decide_eq_decide.mpr ?_
      constructor
      · rintro ⟨hkey, -, hbne⟩
        rcases Option.ne_none_iff_exists'.mp hbne with ⟨x, hx⟩
        have h1 := congrArg (fun t : String × String => t.1) hkey
        have h2 := congrArg (fun t : String × String => t.2) hkey
        simp only at h1 h2
        have hgd : a.brand.getD "" = x := by
          rw [hx]
          rfl
        exact ⟨h1, by rw [hx, ← h2, hgd]⟩
      · rintro ⟨ha1, ha2⟩
        have hgd : a.brand.getD "" = k.2 := by
          rw [ha2]
          rfl
        refine ⟨?_, ha1.trans hq, ?_⟩
        · rw [ha1, hgd]
        · rw [ha2]
          exact Option.some_ne_none _
    rw [hfe]
    rfl
  rw [hmapeq]
  refine Eq.trans (sum_over_keys
    (fun a : SaleRec => (a.period, a.brand.getD ""))
    (fun a : SaleRec => a.revenue) _ _
    ((List.nodup_dedup _).filter _) ?_) rfl
  intro a ha
  rcases List.mem_filter.mp ha with ⟨hadf, hacond⟩
  rw [decide_eq_true_eq] at hacond
  rcases hacond with ⟨hape, habne⟩
  rcases Option.ne_none_iff_exists'.mp habne with ⟨x, hx⟩
  have hgd : a.brand.getD "" = x := by
    rw [hx]
    rfl
  show (a.period, a.brand.getD "") ∈ _
  rw [hape, hgd]
  refine List.mem_filter.mpr ⟨?_, ?_⟩
  · refine List.mem_dedup.mpr (List.mem_filterMap.mpr ⟨a, hadf, ?_⟩)
    rw [hx]
    simp only [Option.map_some']
    rw [hape]
  · show decide ((pe, x).1 = pe) = true
    rw [decide_eq_true_eq]

/-- C6 (corrected), counterexample: a (period, platform) stratum in which
every record has a brand but the revenue total is zero: every share is
NaN, so the shares sum to NaN, not to 100. -/
theorem brand_share_sum_zero_total_counterexample :
    (∀ r ∈ dfZero, r.brand ≠ none)
    ∧ valSum (((calculate_brand_share dfZero).filter (fun r =>
        decide (r.period = "A" ∧ r.platform = "X"))).map (·.shareRev)) = Val.nan
    ∧ Val.nan ≠ Val.num 100 := by
  refine ⟨by decide, by with_unfolding_all decide, by decide⟩

/-- C6 (amended): in every (period, platform) stratum — real platforms and
the all-platforms rollup alike — whose records all carry a brand and whose
revenue total is non-zero, the brand revenue-shares sum exactly to 100 (in
exact rational arithmetic; floating-point evaluation adds only rounding
noise around this identity). -/
theorem brand_shares_sum_100 (df : List SaleRec) (pe : String)
    (hALL : ∀ r ∈ df, r.platform ≠ ALL) :
    (∀ pl, pl ≠ ALL →
      (∀ r ∈ df, r.period = pe → r.platform = pl → r.brand ≠ none) →
      ppTotalRev df pe pl ≠ 0 →
      valSum (((calculate_brand_share df).filter (fun r =>
        decide (r.period = pe ∧ r.platform = pl))).map (·.shareRev)) = Val.num 100)
    ∧ ((∀ r ∈ df, r.period = pe → r.brand ≠ none) →
      pTotalRev df pe ≠ 0 →
      valSum (((calculate_brand_share df).filter (fun r =>
        decide (r.period = pe ∧ r.platform = ALL))).map (·.shareRev)) = Val.num 100) := by
  constructor
  · intro pl hpl hb hT
    have hsplit : calculate_brand_share df
        = (brandKeys df).map (brandRowFor df)
          ++ (periodBrandKeys df).map (allBrandRowFor df) := rfl
    rw [hsplit, List.filter_append, List.map_append]
    have hBnil : ((periodBrandKeys df).map (allBrandRowFor df)).filter
        (fun r => decide (r.period = pe ∧ r.platform = pl)) = [] := by
      refine List.filter_eq_nil_iff.mpr ?_
      intro row hrow
      rw [decide_eq_true_eq]
      rintro ⟨-, hpl2⟩
      exact hpl ((allBrandRows_platform df row hrow) ▸ hpl2).symm
    rw [hBnil]
    simp only [List.map_nil, List.append_nil]
    have hAfilter : ((brandKeys df).map (brandRowFor df)).filter
        (fun r => decide (r.period = pe ∧ r.platform = pl))
        = ((brandKeys df).filter (fun k =>
            decide (k.1 = pe ∧ k.2.1 = pl))).map (brandRowFor df) := by
      rw [List.filter_map]
      rfl
    rw [hAfilter, List.map_map]
    have hshare : ((brandKeys df).filter (fun k =>
          decide (k.1 = pe ∧ k.2.1 = pl))).map
            ((fun r : BrandRow => r.shareRev) ∘ brandRowFor df)
        = ((brandKeys df).filter (fun k =>
          decide (k.1 = pe ∧ k.2.1 = pl))).map (fun k =>
            Val.num ((100 / ppTotalRev df pe pl) * sumRev (df.filter (fun r =>
              decide (r.period = k.1 ∧ r.platform = k.2.1 ∧ r.brand = some k.2.2))))) := by
      refine List.map_congr_left ?_
      intro k hkf
      rcases List.mem_filter.mp hkf with ⟨-, hq⟩
      rw [decide_eq_true_eq] at hq
      show (brandRowFor df k).shareRev = _
      have he : (brandRowFor df k).shareRev
          = (npDivVal (sumRev (df.filter (fun r =>
              decide (r.period = k.1 ∧ r.platform = k.2.1 ∧ r.brand = some k.2.2))))
              (ppTotalRev df k.1 k.2.1)).scale100 := rfl
      rw [he, hq.1, hq.2]
      rw [npDivVal, if_neg hT]
      show Val.num (100 * _) = _
      congr 1
      field_simp
    rw [hshare]
    refine Eq.trans (valSum_map_num (fun k : String × String × String =>
      (100 / ppTotalRev df pe pl) * sumRev (df.filter (fun r =>
        decide (r.period = k.1 ∧ r.platform = k.2.1 ∧ r.brand = some k.2.2))))
      ((brandKeys df).filter (fun k => decide (k.1 = pe ∧ k.2.1 = pl)))) ?_
    congr 1
    refine Eq.trans (List.sum_map_mul_left
      ((brandKeys df).filter (fun k => decide (k.1 = pe ∧ k.2.1 = pl)))
      (fun k : String × String × String => sumRev (df.filter (fun r =>
        decide (r.period = k.1 ∧ r.platform = k.2.1 ∧ r.brand = some k.2.2))))
      (100 / ppTotalRev df pe pl)) ?_
    rw [sum_brand_revenue_partition df pe pl]
    have hstr : df.filter (fun r =>
        decide (r.period = pe ∧ r.platform = pl ∧ r.brand ≠ none))
        = df.filter (fun r => decide (r.period = pe ∧ r.platform = pl)) := by
      refine filter_decide_congr ?_
      intro a ha
      exact ⟨fun h => ⟨h.1, h.2.1⟩, fun h => ⟨h.1, h.2, hb a ha h.1 h.2⟩⟩
    rw [hstr]
    show 100 / ppTotalRev df pe pl * ppTotalRev df pe pl = 100
    field_simp
  · intro hb hT
    have hsplit : calculate_brand_share df
        = (brandKeys df).map (brandRowFor df)
          ++ (periodBrandKeys df).map (allBrandRowFor df) := rfl
    rw [hsplit, List.filter_append, List.map_append]
    have hAnil : ((brandKeys df).map (brandRowFor df)).filter
        (fun r => decide (r.period = pe ∧ r.platform = ALL)) = [] := by
      refine List.filter_eq_nil_iff.mpr ?_
      intro row hrow
      rw [decide_eq_true_eq]
      rintro ⟨-, hpl2⟩
      exact brandRows_platform_ne_ALL df hALL row hrow hpl2
    rw [hAnil]
    simp only [List.map_nil, List.nil_append]
    have hBfilter : ((periodBrandKeys df).map (allBrandRowFor df)).filter
        (fun r => decide (r.period = pe ∧ r.platform = ALL))
        = ((periodBrandKeys df).filter (fun k => decide (k.1 = pe))).map
            (allBrandRowFor df) := by
      rw [List.filter_map]
      congr 1
      refine List.filter_congr ?_
      intro k _
      refine decide_eq_decide.mpr ?_
      exact ⟨fun h => h.1, fun h => ⟨h, rfl⟩⟩
    rw [hBfilter, List.map_map]
    have hshare : ((periodBrandKeys df).filter (fun k => decide (k.1 = pe))).map
            ((fun r : BrandRow => r.shareRev) ∘ allBrandRowFor df)
        = ((periodBrandKeys df).filter (fun k => decide (k.1 = pe))).map (fun k =>
            Val.num ((100 / pTotalRev df pe) * sumRev (df.filter (fun r =>
              decide (r.period = k.1 ∧ r.brand = some k.2))))) := by
      refine List.map_congr_left ?_
      intro k hkf
      rcases List.mem_filter.mp hkf with ⟨-, hq⟩
      rw [decide_eq_true_eq] at hq
      show (allBrandRowFor df k).shareRev = _
      have he : (allBrandRowFor df k).shareRev
          = (npDivVal (sumRev (df.filter (fun r =>
              decide (r.period = k.1 ∧ r.brand = some k.2))))
              (pTotalRev df k.1)).scale100 := rfl
      rw [he, hq]
      rw [npDivVal, if_neg hT]
      show Val.num (100 * _) = _
      congr 1
      field_simp
    rw [hshare]
    refine Eq.trans (valSum_map_num (fun k : String × String =>
      (100 / pTotalRev df pe) * sumRev (df.filter (fun r =>
        decide (r.period = k.1 ∧ r.brand = some k.2))))
      ((periodBrandKeys df).filter (fun k => decide (k.1 = pe)))) ?_
    congr 1
    refine Eq.trans (List.sum_map_mul_left
      ((periodBrandKeys df).filter (fun k => decide (k.1 = pe)))
      (fun k : String × String => sumRev (df.filter (fun r =>
        decide (r.period = k.1 ∧ r.brand = some k.2))))
      (100 / pTotalRev df pe)) ?_
    rw [sum_pbrand_revenue_partition df pe]
    have hstr : df.filter (fun r => decide (r.period = pe ∧ r.brand ≠ none))
        = df.filter (fun r => decide (r.period = pe)) := by
      refine filter_decide_congr ?_
      intro a ha
      exact ⟨fun h => h.1, fun h => ⟨h, hb a ha h⟩⟩
    rw [hstr]
    show 100 / pTotalRev df pe * pTotalRev df pe = 100
    field_simp

/-- Witness for C6: on `dfTop`, stratum (period "A", platform "X") has
three branded records with total revenue 60; the shares sum to exactly
100, by the amended theorem. -/
theorem brand_shares_sum_100_witness :
    ppTotalRev dfTop "A" "X" ≠ 0
    ∧ valSum (((calculate_brand_share dfTop).filter (fun r =>
        decide (r.period = "A" ∧ r.platform = "X"))).map (·.shareRev)) = Val.num 100 := by
  refine ⟨by with_unfolding_all decide, ?_⟩
  exact (brand_shares_sum_100 dfTop "A" (by decide)).1 "X" (by decide)
    (by decide) (by with_unfolding_all decide)

theorem mem_segKeys_origin (df : List SaleRec) (ranges : List ℚ)
    (k : String × String × (ℚ × ℚ)) (hk : k ∈ segKeys df ranges) :
    ∃ r ∈ df, r.period = k.1 ∧ r.platform = k.2.1
      ∧ cutSegment ranges r.price = some k.2.2 := by
  rcases List.mem_filterMap.mp (List.mem_dedup.mp hk) with ⟨r, hr, heq⟩
  rcases Option.map_eq_some'.mp heq with ⟨s, hs, hkey⟩
  refine ⟨r, hr, ?_, ?_, ?_⟩
  · rw [← hkey]
  · rw [← hkey]
  · rw [← hkey]
    exact hs

/-- C7 (corrected), counterexample: with boundaries [0, 100], a stratum
holding an in-segment record (price 50, revenue 50) and a segment-less
record (price 400, revenue 50).  The claim demands share
50 / 50 × 100 = 100 over in-segment rows only, but the code divides by
the whole stratum total and produces 50. -/
theorem segment_share_counterexample :
    cutSegment [0, 100] 400 = none
    ∧ ((analyze_price_segments dfSeg [0, 100]).filter (fun r =>
        decide (r.platform = "X"))).map (·.shareRev) = [Val.num 50]
    ∧ Val.num 50 ≠ Val.num 100 := by
  refine ⟨by decide, by with_unfolding_all decide, by decide⟩

/-- C7 (amended): records whose price falls outside every boundary are
excluded from the segment rows themselves — each price-segment row's
summed revenue counts exactly the in-segment records of its key — but
they are NOT excluded from the share denominators: each row's share is
its value divided by the total over every record of the (period,
platform) stratum (respectively the period, for the all-platforms
rollup), segment-less records included, times 100. -/
theorem segment_share_denominator_includes_all (df : List SaleRec)
    (ranges : List ℚ) (hALL : ∀ r ∈ df, r.platform ≠ ALL) :
    ∀ row ∈ analyze_price_segments df ranges,
      (row.platform ≠ ALL →
        row.revenue = sumRev (df.filter (fun r => decide (r.period = row.period
          ∧ r.platform = row.platform ∧ cutSegment ranges r.price = some row.seg)))
        ∧ row.shareRev
          = (npDivVal row.revenue (ppTotalRev df row.period row.platform)).scale100
        ∧ row.shareVol
          = (npDivVal row.volume (ppTotalVol df row.period row.platform)).scale100)
      ∧ (row.platform = ALL →
        row.revenue = sumRev (df.filter (fun r => decide (r.period = row.period
          ∧ cutSegment ranges r.price = some row.seg)))
        ∧ row.shareRev = (npDivVal row.revenue (pTotalRev df row.period)).scale100
        ∧ row.shareVol = (npDivVal row.volume (pTotalVol df row.period)).scale100) := by
  intro row hrow
  rcases analyze_price_segments_mem df ranges row hrow with
    ⟨b, hb, hfper, hfplat, hfseg, hfrev, hfvol, hfsr, hfsv⟩
  rcases List.mem_append.mp hb with h | h
  · rcases List.mem_map.mp h with ⟨k, hk, rfl⟩
    have hbplat : (segBaseFor df ranges k).platform = k.2.1 := rfl
    have hnotall : k.2.1 ≠ ALL := by
      rcases mem_segKeys_origin df ranges k hk with ⟨r, hr, _, hp, _⟩
      exact hp ▸ hALL r hr
    constructor
    · intro _
      simp only [hfper, hfplat, hfseg, hfrev, hfvol, hfsr, hfsv]
      exact ⟨rfl, rfl, rfl⟩
    · intro hAll
      rw [hfplat, hbplat] at hAll
      exact absurd hAll hnotall
  · rcases List.mem_map.mp h with ⟨k, hk, rfl⟩
    have hbplat : (allSegBaseFor df ranges k).platform = ALL := rfl
    constructor
    · intro hne
      rw [hfplat, hbplat] at hne
      exact absurd rfl hne
    · intro _
      simp only [hfper, hfplat, hfseg, hfrev, hfvol, hfsr, hfsv]
      exact ⟨rfl, rfl, rfl⟩

/-- Witness for C7: on `dfSeg` with boundaries [0, 100], the platform-"X"
segment row (revenue 50) is in the output, the stratum total including
the segment-less record is 100, and the amended theorem yields its share
50 / 100 × 100 = 50. -/
theorem segment_share_denominator_witness :
    ppTotalRev dfSeg "A" "X" = 100
    ∧ ((⟨"A", "X", (0, 100), 50, 1, Val.num 50, Val.num 50, Val.nan, Val.nan⟩ : SegRow)
      ∈ analyze_price_segments dfSeg [0, 100])
    ∧ (Val.num 50 : Val) = (npDivVal 50 (ppTotalRev dfSeg "A" "X")).scale100 := by
  have hmem : (⟨"A", "X", (0, 100), 50, 1, Val.num 50, Val.num 50,
      Val.nan, Val.nan⟩ : SegRow) ∈ analyze_price_segments dfSeg [0, 100] := by
    with_unfolding_all decide
  refine ⟨by with_unfolding_all decide, hmem, ?_⟩
  have h := ((segment_share_denominator_includes_all dfSeg [0, 100] (by decide))
    _ hmem).1 (by decide)
  exact h.2.1

theorem flatMap_congr {α β : Type} {f g : α → List β} :
    ∀ {l : List α}, (∀ a ∈ l, f a = g a) → l.flatMap f = l.flatMap g
  | [], _ => rfl
  | a :: l, h => by
    rw [List.flatMap_cons, List.flatMap_cons, h a (List.mem_cons_self a l),
      flatMap_congr (fun x hx => h x (List.mem_cons_of_mem _ hx))]

theorem mem_takeTop {n : ℕ} {l : List TopBrandRow} {r : TopBrandRow}
    (h : r ∈ takeTop n l) : r ∈ l :=
  mem_sortedBy.mp ((List.take_sublist n _).subset h)

theorem takeTop_length (n : ℕ) (l : List TopBrandRow) :
    (takeTop n l).length = min n l.length := by
  show ((sortedBy revDesc l).take n).length = min n l.length
  rw [List.length_take, length_sortedBy]

theorem takeTop_pairwise (n : ℕ) (l : List TopBrandRow) :
    (takeTop n l).Pairwise (fun a b => b.revenue ≤ a.revenue) := by
  have htot : ∀ a b : TopBrandRow, revDesc a b = true ∨ revDesc b a = true := by
    intro a b
    rcases le_total b.revenue a.revenue with h | h
    · exact Or.inl (decide_eq_true h)
    · exact Or.inr (decide_eq_true h)
  have htr : ∀ a b c : TopBrandRow, revDesc a b = true → revDesc b c = true →
      revDesc a c = true := by
    intro a b c h1 h2
    exact decide_eq_true (le_trans (of_decide_eq_true h2) (of_decide_eq_true h1))
  have hp := sortedBy_pairwise htot htr l
  have hsub := List.Pairwise.sublist (List.take_sublist n (sortedBy revDesc l)) hp
  exact hsub.imp (fun h => of_decide_eq_true h)

theorem mem_tbKeys_origin (df : List SaleRec) (ranges : List ℚ)
    (k : String × String × (ℚ × ℚ) × String) (hk : k ∈ tbKeys df ranges) :
    ∃ r ∈ df, r.period = k.1 ∧ r.platform = k.2.1
      ∧ cutSegment ranges r.price = some k.2.2.1 ∧ r.brand = some k.2.2.2 := by
  rcases List.mem_filterMap.mp (List.mem_dedup.mp hk) with ⟨r, hr, heq⟩
  rcases h1 : cutSegment ranges r.price with _ | s
  · rw [h1] at heq
    rcases h2 : r.brand with _ | b <;> rw [h2] at heq <;> exact absurd heq (by simp)
  · rcases h2 : r.brand with _ | b
    · rw [h1, h2] at heq
      exact absurd heq (by simp)
    · rw [h1, h2] at heq
      simp only [Option.some_inj] at heq
      refine ⟨r, hr, ?_, ?_, ?_, ?_⟩
      · rw [← heq]
      · rw [← heq]
      · rw [← heq, h1]
      · rw [← heq, h2]

theorem topBrandAgg_platform_ne (df : List SaleRec) (ranges : List ℚ)
    (hALL : ∀ r ∈ df, r.platform ≠ ALL) :
    ∀ r ∈ topBrandAgg df ranges, r.platform ≠ ALL := by
  intro r hr
  rcases List.mem_map.mp hr with ⟨k, hk, rfl⟩
  rcases mem_tbKeys_origin df ranges k hk with ⟨x, hx, _, hp, _, _⟩
  show k.2.1 ≠ ALL
  exact hp ▸ hALL x hx

theorem allTopBrandAgg_platform (df : List SaleRec) (ranges : List ℚ) :
    ∀ r ∈ allTopBrandAgg df ranges, r.platform = ALL := by
  intro r hr
  rcases List.mem_map.mp hr with ⟨k, _, rfl⟩
  rfl

theorem takeTop_nil (n : ℕ) : takeTop n ([] : List TopBrandRow) = [] := by
  simp [takeTop, sortedBy]

theorem topSel3_filter_eq (t : List TopBrandRow) (n : ℕ) (pe pl : String)
    (sg : ℚ × ℚ) :
    (((t.map (·.period)).dedup).flatMap (fun p =>
      ((t.map (·.platform)).dedup).flatMap (fun pl2 =>
        ((t.map (·.seg)).dedup).flatMap (fun sg2 =>
          takeTop n (t.filter (fun r =>
            decide (r.period = p ∧ r.platform = pl2 ∧ r.seg = sg2))))))).filter
      (fun r => decide (r.period = pe ∧ r.platform = pl ∧ r.seg = sg))
    = takeTop n (t.filter (fun r =>
        decide (r.period = pe ∧ r.platform = pl ∧ r.seg = sg))) := by
  have h1 : ∀ p pl2 sg2, (takeTop n (t.filter (fun r =>
      decide (r.period = p ∧ r.platform = pl2 ∧ r.seg = sg2)))).filter
        (fun r => decide (r.period = pe ∧ r.platform = pl ∧ r.seg = sg))
      = if p = pe ∧ pl2 = pl ∧ sg2 = sg
        then takeTop n (t.filter (fun r =>
          decide (r.period = pe ∧ r.platform = pl ∧ r.seg = sg)))
        else [] := by
    intro p pl2 sg2
    by_cases hc : p = pe ∧ pl2 = pl ∧ sg2 = sg
    · rcases hc with ⟨rfl, rfl, rfl⟩
      rw [if_pos ⟨rfl, rfl, rfl⟩]
      exact List.filter_eq_self.mpr
        (fun r hr => (List.mem_filter.mp (mem_takeTop hr)).2)
    · rw [if_neg hc]
      refine List.filter_eq_nil_iff.mpr ?_
      intro r hr hst
      have h3 := of_decide_eq_true (List.mem_filter.mp (mem_takeTop hr)).2
      have h4 := of_decide_eq_true hst
      exact hc ⟨h3.1.symm.trans h4.1, h3.2.1.symm.trans h4.2.1,
        h3.2.2.symm.trans h4.2.2⟩
  have h2 : ∀ p pl2, (((t.map (·.seg)).dedup).flatMap (fun sg2 =>
      takeTop n (t.filter (fun r =>
        decide (r.period = p ∧ r.platform = pl2 ∧ r.seg = sg2))))).filter
        (fun r => decide (r.period = pe ∧ r.platform = pl ∧ r.seg = sg))
      = if p = pe ∧ pl2 = pl ∧ sg ∈ (t.map (·.seg)).dedup
        then takeTop n (t.filter (fun r =>
          decide (r.period = pe ∧ r.platform = pl ∧ r.seg = sg)))
        else [] := by
    intro p pl2
    rw [List.filter_flatMap, flatMap_congr (fun sg2 _ => h1 p pl2 sg2)]
    by_cases hc : p = pe ∧ pl2 = pl
    · rw [flatMap_eq_single _ sg _ (List.nodup_dedup _)
        (fun x _ hne => if_neg (fun hh => hne hh.2.2))]
      by_cases hg : sg ∈ (t.map (·.seg)).dedup
      · rw [if_pos hg, if_pos ⟨hc.1, hc.2, rfl⟩, if_pos ⟨hc.1, hc.2, hg⟩]
      · rw [if_neg hg, if_neg (fun hh : p = pe ∧ pl2 = pl ∧
          sg ∈ (t.map (·.seg)).dedup => hg hh.2.2)]
    · rw [if_neg (fun hh : p = pe ∧ pl2 = pl ∧ sg ∈ (t.map (·.seg)).dedup =>
        hc ⟨hh.1, hh.2.1⟩)]
      exact List.flatMap_eq_nil_iff.mpr
        (fun x _ => if_neg (fun hh => hc ⟨hh.1, hh.2.1⟩))
  have h3 : ∀ p, (((t.map (·.platform)).dedup).flatMap (fun pl2 =>
      ((t.map (·.seg)).dedup).flatMap (fun sg2 =>
        takeTop n (t.filter (fun r =>
          decide (r.period = p ∧ r.platform = pl2 ∧ r.seg = sg2)))))).filter
        (fun r => decide (r.period = pe ∧ r.platform = pl ∧ r.seg = sg))
      = if p = pe ∧ pl ∈ (t.map (·.platform)).dedup
          ∧ sg ∈ (t.map (·.seg)).dedup
        then takeTop n (t.filter (fun r =>
          decide (r.period = pe ∧ r.platform = pl ∧ r.seg = sg)))
        else [] := by
    intro p
    rw [List.filter_flatMap, flatMap_congr (fun pl2 _ => h2 p pl2)]
    by_cases hc : p = pe
    · rw [flatMap_eq_single _ pl _ (List.nodup_dedup _)
        (fun x _ hne => if_neg (fun hh => hne hh.2.1))]
      by_cases hl : pl ∈ (t.map (·.platform)).dedup
      · rw [if_pos hl]
        by_cases hg : sg ∈ (t.map (·.seg)).dedup
        · rw [if_pos ⟨hc, rfl, hg⟩, if_pos ⟨hc, hl, hg⟩]
        · rw [if_neg (fun hh : p = pe ∧ pl = pl ∧ sg ∈ (t.map (·.seg)).dedup =>
            hg hh.2.2), if_neg (fun hh : p = pe ∧ pl ∈ (t.map (·.platform)).dedup
            ∧ sg ∈ (t.map (·.seg)).dedup => hg hh.2.2)]
      · rw [if_neg hl, if_neg (fun hh : p = pe ∧ pl ∈ (t.map (·.platform)).dedup
          ∧ sg ∈ (t.map (·.seg)).dedup => hl hh.2.1)]
    · rw [if_neg (fun hh : p = pe ∧ pl ∈ (t.map (·.platform)).dedup
        ∧ sg ∈ (t.map (·.seg)).dedup => hc hh.1)]
      exact List.flatMap_eq_nil_iff.mpr
        (fun x _ => if_neg (fun hh => hc hh.1))
  rw [List.filter_flatMap, flatMap_congr (fun p _ => h3 p),
    flatMap_eq_single _ pe _ (List.nodup_dedup _)
      (fun x _ hne => if_neg (fun hh => hne hh.1))]
  by_cases hp : pe ∈ (t.map (·.period)).dedup
  · rw [if_pos hp]
    by_cases hl : pl ∈ (t.map (·.platform)).dedup
    · by_cases hg : sg ∈ (t.map (·.seg)).dedup
      · rw [if_pos ⟨rfl, hl, hg⟩]
      · rw [if_neg (fun hh : pe = pe ∧ pl ∈ (t.map (·.platform)).dedup
          ∧ sg ∈ (t.map (·.seg)).dedup => hg hh.2.2)]
        have hnil : t.filter (fun r =>
            decide (r.period = pe ∧ r.platform = pl ∧ r.seg = sg)) = [] := by
          refine List.filter_eq_nil_iff.mpr ?_
          intro r hr hst
          exact hg (List.mem_dedup.mpr (List.mem_map.mpr
            ⟨r, hr, (of_decide_eq_true hst).2.2⟩))
        rw [hnil]
        exact (takeTop_nil n).symm
    · rw [if_neg (fun hh : pe = pe ∧ pl ∈ (t.map (·.platform)).dedup
        ∧ sg ∈ (t.map (·.seg)).dedup => hl hh.2.1)]
      have hnil : t.filter (fun r =>
          decide (r.period = pe ∧ r.platform = pl ∧ r.seg = sg)) = [] := by
        refine List.filter_eq_nil_iff.mpr ?_
        intro r hr hst
        exact hl (List.mem_dedup.mpr (List.mem_map.mpr
          ⟨r, hr, (of_decide_eq_true hst).2.1⟩))
      rw [hnil]
      exact (takeTop_nil n).symm
  · rw [if_neg hp]
    have hnil : t.filter (fun r =>
        decide (r.period = pe ∧ r.platform = pl ∧ r.seg = sg)) = [] := by
      refine List.filter_eq_nil_iff.mpr ?_
      intro r hr hst
      exact hp (List.mem_dedup.mpr (List.mem_map.mpr
        ⟨r, hr, (of_decide_eq_true hst).1⟩))
    rw [hnil]
    exact (takeTop_nil n).symm

theorem topSel2_filter_ne (u : List TopBrandRow) (n : ℕ) (pe pl : String)
    (sg : ℚ × ℚ) (hu : ∀ r ∈ u, r.platform ≠ pl) :
    (((u.map (·.period)).dedup).flatMap (fun p =>
      ((u.map (·.seg)).dedup).flatMap (fun sg2 =>
        takeTop n (u.filter (fun r =>
          decide (r.period = p ∧ r.seg = sg2)))))).filter
      (fun r => decide (r.period = pe ∧ r.platform = pl ∧ r.seg = sg)) = [] := by
  rw [List.filter_flatMap]
  refine List.flatMap_eq_nil_iff.mpr ?_
  intro p _
  rw [List.filter_flatMap]
  refine List.flatMap_eq_nil_iff.mpr ?_
  intro sg2 _
  refine List.filter_eq_nil_iff.mpr ?_
  intro r hr hst
  exact hu r (List.mem_filter.mp (mem_takeTop hr)).1 (of_decide_eq_true hst).2.1

theorem topSel3_filter_ne (t : List TopBrandRow) (n : ℕ) (pe pl : String)
    (sg : ℚ × ℚ) (hu : ∀ r ∈ t, r.platform ≠ pl) :
    (((t.map (·.period)).dedup).flatMap (fun p =>
      ((t.map (·.platform)).dedup).flatMap (fun pl2 =>
        ((t.map (·.seg)).dedup).flatMap (fun sg2 =>
          takeTop n (t.filter (fun r =>
            decide (r.period = p ∧ r.platform = pl2 ∧ r.seg = sg2))))))).filter
      (fun r => decide (r.period = pe ∧ r.platform = pl ∧ r.seg = sg)) = [] := by
  rw [List.filter_flatMap]
  refine List.flatMap_eq_nil_iff.mpr ?_
  intro p _
  rw [List.filter_flatMap]
  refine List.flatMap_eq_nil_iff.mpr ?_
  intro pl2 _
  rw [List.filter_flatMap]
  refine List.flatMap_eq_nil_iff.mpr ?_
  intro sg2 _
  refine List.filter_eq_nil_iff.mpr ?_
  intro r hr hst
  exact hu r (List.mem_filter.mp (mem_takeTop hr)).1 (of_decide_eq_true hst).2.1

theorem topSel2_filter_eq (u : List TopBrandRow) (n : ℕ) (pe : String)
    (sg : ℚ × ℚ) (hu : ∀ r ∈ u, r.platform = ALL) :
    (((u.map (·.period)).dedup).flatMap (fun p =>
      ((u.map (·.seg)).dedup).flatMap (fun sg2 =>
        takeTop n (u.filter (fun r =>
          decide (r.period = p ∧ r.seg = sg2)))))).filter
      (fun r => decide (r.period = pe ∧ r.platform = ALL ∧ r.seg = sg))
    = takeTop n (u.filter (fun r => decide (r.period = pe ∧ r.seg = sg))) := by
  have h1 : ∀ p sg2, (takeTop n (u.filter (fun r =>
      decide (r.period = p ∧ r.seg = sg2)))).filter
        (fun r => decide (r.period = pe ∧ r.platform = ALL ∧ r.seg = sg))
      = if p = pe ∧ sg2 = sg
        then takeTop n (u.filter (fun r => decide (r.period = pe ∧ r.seg = sg)))
        else [] := by
    intro p sg2
    by_cases hc : p = pe ∧ sg2 = sg
    · rcases hc with ⟨rfl, rfl⟩
      rw [if_pos ⟨rfl, rfl⟩]
      refine List.filter_eq_self.mpr ?_
      intro r hr
      have h3 := List.mem_filter.mp (mem_takeTop hr)
      have h4 := of_decide_eq_true h3.2
      exact decide_eq_true ⟨h4.1, hu r h3.1, h4.2⟩
    · rw [if_neg hc]
      refine List.filter_eq_nil_iff.mpr ?_
      intro r hr hst
      have h3 := of_decide_eq_true (List.mem_filter.mp (mem_takeTop hr)).2
      have h4 := of_decide_eq_true hst
      exact hc ⟨h3.1.symm.trans h4.1, h3.2.symm.trans h4.2.2⟩
  have h2 : ∀ p, (((u.map (·.seg)).dedup).flatMap (fun sg2 =>
      takeTop n (u.filter (fun r =>
        decide (r.period = p ∧ r.seg = sg2))))).filter
        (fun r => decide (r.period = pe ∧ r.platform = ALL ∧ r.seg = sg))
      = if p = pe ∧ sg ∈ (u.map (·.seg)).dedup
        then takeTop n (u.filter (fun r => decide (r.period = pe ∧ r.seg = sg)))
        else [] := by
    intro p
    rw [List.filter_flatMap, flatMap_congr (fun sg2 _ => h1 p sg2)]
    by_cases hc : p = pe
    · rw [flatMap_eq_single _ sg _ (List.nodup_dedup _)
        (fun x _ hne => if_neg (fun hh => hne hh.2))]
      by_cases hg : sg ∈ (u.map (·.seg)).dedup
      · rw [if_pos hg, if_pos ⟨hc, rfl⟩, if_pos ⟨hc, hg⟩]
      · rw [if_neg hg, if_neg (fun hh : p = pe ∧ sg ∈ (u.map (·.seg)).dedup =>
          hg hh.2)]
    · rw [if_neg (fun hh : p = pe ∧ sg ∈ (u.map (·.seg)).dedup => hc hh.1)]
      exact List.flatMap_eq_nil_iff.mpr
        (fun x _ => if_neg (fun hh => hc hh.1))
  rw [List.filter_flatMap, flatMap_congr (fun p _ => h2 p),
    flatMap_eq_single _ pe _ (List.nodup_dedup _)
      (fun x _ hne => if_neg (fun hh => hne hh.1))]
  by_cases hp : pe ∈ (u.map (·.period)).dedup
  · rw [if_pos hp]
    by_cases hg : sg ∈ (u.map (·.seg)).dedup
    · rw [if_pos ⟨rfl, hg⟩]
    · rw [if_neg (fun hh : pe = pe ∧ sg ∈ (u.map (·.seg)).dedup => hg hh.2)]
      have hnil : u.filter (fun r =>
          decide (r.period = pe ∧ r.seg = sg)) = [] := by
        refine List.filter_eq_nil_iff.mpr ?_
        intro r hr hst
        exact hg (List.mem_dedup.mpr (List.mem_map.mpr
          ⟨r, hr, (of_decide_eq_true hst).2⟩))
      rw [hnil]
      exact (takeTop_nil n).symm
  · rw [if_neg hp]
    have hnil : u.filter (fun r =>
        decide (r.period = pe ∧ r.seg = sg)) = [] := by
      refine List.filter_eq_nil_iff.mpr ?_
      intro r hr hst
      exact hp (List.mem_dedup.mpr (List.mem_map.mpr
        ⟨r, hr, (of_decide_eq_true hst).1⟩))
    rw [hnil]
    exact (takeTop_nil n).symm

theorem topBrands_stratum (df : List SaleRec) (ranges : List ℚ) (n : ℕ)
    (pe pl : String) (sg : ℚ × ℚ) (hALL : ∀ r ∈ df, r.platform ≠ ALL) :
    (pl ≠ ALL →
      (get_top_brands_by_segment df ranges n).filter (fun r =>
        decide (r.period = pe ∧ r.platform = pl ∧ r.seg = sg))
      = takeTop n ((topBrandAgg df ranges).filter (fun r =>
          decide (r.period = pe ∧ r.platform = pl ∧ r.seg = sg))))
    ∧ ((get_top_brands_by_segment df ranges n).filter (fun r =>
        decide (r.period = pe ∧ r.platform = ALL ∧ r.seg = sg))
      = takeTop n ((allTopBrandAgg df ranges).filter (fun r =>
          decide (r.period = pe ∧ r.seg = sg)))) := by
  have hsplit : get_top_brands_by_segment df ranges n
      = (((topBrandAgg df ranges).map (·.period)).dedup.flatMap (fun p =>
          ((topBrandAgg df ranges).map (·.platform)).dedup.flatMap (fun pl2 =>
            ((topBrandAgg df ranges).map (·.seg)).dedup.flatMap (fun sg2 =>
              takeTop n ((topBrandAgg df ranges).filter (fun r =>
                decide (r.period = p ∧ r.platform = pl2 ∧ r.seg = sg2)))))))
        ++ (((allTopBrandAgg df ranges).map (·.period)).dedup.flatMap (fun p =>
            ((allTopBrandAgg df ranges).map (·.seg)).dedup.flatMap (fun sg2 =>
              takeTop n ((allTopBrandAgg df ranges).filter (fun r =>
                decide (r.period = p ∧ r.seg = sg2)))))) := rfl
  constructor
  · intro hpl
    rw [hsplit, List.filter_append,
      topSel3_filter_eq (topBrandAgg df ranges) n pe pl sg,
      topSel2_filter_ne (allTopBrandAgg df ranges) n pe pl sg
        (fun r hr hq =>
          hpl ((allTopBrandAgg_platform df ranges r hr).symm.trans hq).symm),
      List.append_nil]
  · rw [hsplit, List.filter_append,
      topSel3_filter_ne (topBrandAgg df ranges) n pe ALL sg
      (fun r hr => topBrandAgg_platform_ne df ranges hALL r hr),
      topSel2_filter_eq (allTopBrandAgg df ranges) n pe sg
        (allTopBrandAgg_platform df ranges),
      List.nil_append]

theorem topBrandAgg_stratum_pos (df : List SaleRec) (ranges : List ℚ)
    (pe pl : String) (sg : ℚ × ℚ) (b : String)
    (hk : (pe, pl, sg, b) ∈ tbKeys df ranges) :
    0 < ((topBrandAgg df ranges).filter (fun r =>
      decide (r.period = pe ∧ r.platform = pl ∧ r.seg = sg))).length := by
  have h2 : ∃ x ∈ topBrandAgg df ranges,
      x.period = pe ∧ x.platform = pl ∧ x.seg = sg :=
    ⟨_, List.mem_map.mpr ⟨(pe, pl, sg, b), hk, rfl⟩, rfl, rfl, rfl⟩
  rcases h2 with ⟨x, hx, hx1, hx2, hx3⟩
  exact List.length_pos_of_mem (List.mem_filter.mpr
    ⟨hx, decide_eq_true ⟨hx1, hx2, hx3⟩⟩)

/-- C8 (confirmed): for every (period, platform, segment) stratum of the
per-platform aggregate (and of the all-platforms rollup aggregate), the
rows of `get_top_brands_by_segment` belonging to that stratum number
exactly `min n c` where `c` is the stratum's candidate-row count, and
they are sorted descending by summed revenue; the caller substitutes the
"no data" placeholder sheet exactly when every record of the input lacks
a price segment or a brand, i.e. when every stratum is empty. -/
theorem top_n_selector_spec (df : List SaleRec) (ranges : List ℚ) (n : ℕ)
    (pe pl : String) (sg : ℚ × ℚ)
    (hALL : ∀ r ∈ df, r.platform ≠ ALL) (hn : 0 < n) :
    (pl ≠ ALL →
      (((get_top_brands_by_segment df ranges n).filter (fun r =>
          decide (r.period = pe ∧ r.platform = pl ∧ r.seg = sg))).length
        = min n (((topBrandAgg df ranges).filter (fun r =>
            decide (r.period = pe ∧ r.platform = pl ∧ r.seg = sg))).length)
      ∧ ((get_top_brands_by_segment df ranges n).filter (fun r =>
          decide (r.period = pe ∧ r.platform = pl ∧ r.seg = sg))).Pairwise
          (fun a b => b.revenue ≤ a.revenue)))
    ∧ ((((get_top_brands_by_segment df ranges n).filter (fun r =>
          decide (r.period = pe ∧ r.platform = ALL ∧ r.seg = sg))).length
        = min n (((allTopBrandAgg df ranges).filter (fun r =>
            decide (r.period = pe ∧ r.seg = sg))).length)
      ∧ ((get_top_brands_by_segment df ranges n).filter (fun r =>
          decide (r.period = pe ∧ r.platform = ALL ∧ r.seg = sg))).Pairwise
          (fun a b => b.revenue ≤ a.revenue)))
    ∧ (topBrandsSheet (get_top_brands_by_segment df ranges n)
          = TopSheet.placeholder
        ↔ ∀ r ∈ df, cutSegment ranges r.price = none ∨ r.brand = none) := by
  obtain ⟨hP, hA⟩ := topBrands_stratum df ranges n pe pl sg hALL
  refine ⟨fun hpl => ?_, ⟨?_, ?_⟩, ?_, ?_⟩
  · rw [hP hpl]
    exact ⟨takeTop_length n _, takeTop_pairwise n _⟩
  · rw [hA]
    exact takeTop_length n _
  · rw [hA]
    exact takeTop_pairwise n _
  · intro hph r hr
    have hout : get_top_brands_by_segment df ranges n = [] := by
      by_cases he : (get_top_brands_by_segment df ranges n).isEmpty
      · exact List.isEmpty_iff.mp he
      · simp [topBrandsSheet, he] at hph
    by_contra hcon
    push_neg at hcon
    rcases Option.ne_none_iff_exists'.mp hcon.1 with ⟨s, hs⟩
    rcases Option.ne_none_iff_exists'.mp hcon.2 with ⟨b, hb⟩
    have hk : (r.period, r.platform, s, b) ∈ tbKeys df ranges := by
      refine List.mem_dedup.mpr (List.mem_filterMap.mpr ⟨r, hr, ?_⟩)
      rw [hs, hb]
    have hpos := topBrandAgg_stratum_pos df ranges r.period r.platform s b hk
    have hst := (topBrands_stratum df ranges n r.period r.platform s hALL).1
      (hALL r hr)
    rw [hout] at hst
    have hlen := congrArg List.length hst
    rw [takeTop_length] at hlen
    simp only [List.filter_nil, List.length_nil] at hlen
    omega
  · intro h
    have ht : tbKeys df ranges = [] := by
      rw [tbKeys, List.dedup_eq_nil]
      refine List.filterMap_eq_nil_iff.mpr ?_
      intro r hr
      rcases h r hr with hseg | hbr
      · rw [hseg]
      · rw [hbr]
        cases cutSegment ranges r.price <;> rfl
    have hu : periodSegBrandKeys df ranges = [] := by
      rw [periodSegBrandKeys, List.dedup_eq_nil]
      refine List.filterMap_eq_nil_iff.mpr ?_
      intro r hr
      rcases h r hr with hseg | hbr
      · rw [hseg]
      · rw [hbr]
        cases cutSegment ranges r.price <;> rfl
    have hta : topBrandAgg df ranges = [] := by
      simp [topBrandAgg, ht]
    have htu : allTopBrandAgg df ranges = [] := by
      simp [allTopBrandAgg, hu]
    have hout : get_top_brands_by_segment df ranges n = [] := by
      simp [get_top_brands_by_segment, hta, htu]
    rw [hout]
    rfl

theorem top_n_selector_spec_witness :
    (∀ r ∈ dfTop, r.platform ≠ ALL) ∧ 0 < 2 ∧
    ((("X" : String) ≠ ALL →
      (((get_top_brands_by_segment dfTop [0, 100] 2).filter (fun r =>
          decide (r.period = "A" ∧ r.platform = "X" ∧ r.seg = (0, 100)))).length
        = min 2 (((topBrandAgg dfTop [0, 100]).filter (fun r =>
            decide (r.period = "A" ∧ r.platform = "X" ∧ r.seg = (0, 100)))).length)
      ∧ ((get_top_brands_by_segment dfTop [0, 100] 2).filter (fun r =>
          decide (r.period = "A" ∧ r.platform = "X" ∧ r.seg = (0, 100)))).Pairwise
          (fun a b => b.revenue ≤ a.revenue)))
    ∧ ((((get_top_brands_by_segment dfTop [0, 100] 2).filter (fun r =>
          decide (r.period = "A" ∧ r.platform = ALL ∧ r.seg = (0, 100)))).length
        = min 2 (((allTopBrandAgg dfTop [0, 100]).filter (fun r =>
            decide (r.period = "A" ∧ r.seg = (0, 100)))).length)
      ∧ ((get_top_brands_by_segment dfTop [0, 100] 2).filter (fun r =>
          decide (r.period = "A" ∧ r.platform = ALL ∧ r.seg = (0, 100)))).Pairwise
          (fun a b => b.revenue ≤ a.revenue)))
    ∧ (topBrandsSheet (get_top_brands_by_segment dfTop [0, 100] 2)
          = TopSheet.placeholder
        ↔ ∀ r ∈ dfTop, cutSegment [0, 100] r.price = none ∨ r.brand = none)) :=
  ⟨by decide, by decide,
    top_n_selector_spec dfTop [0, 100] 2 "A" "X" (0, 100)
      (by decide) (by decide)⟩

/-- C9 (confirmed): under the key-uniqueness invariant of the long-format
aggregates (one row per (platform, brand, period)), the brand comparison
reshaper emits a wide row for the pair (platform, brand) exactly when
that pair carries rows in more than one distinct period; and on the
concrete product table where product 甲 has revenue 200 then 250 in two
consecutive periods while product 乙 appears in a single period, the
product reshaper yields for 甲 the revenue-change column 25 and no row at
all for 乙. -/
theorem comparison_reshaper_multi_period_only (t : List BrandRow)
    (pl b : String)
    (hnd : (t.map (fun r => (r.platform, r.brand, r.period))).Nodup) :
    ((∃ c ∈ create_brand_comparison_sheet t, c.platform = pl ∧ c.brand = b) ↔
      1 < (((t.filter (fun r => decide (r.platform = pl ∧ r.brand = b))).map
        (·.period)).dedup.length))
    ∧ (∃ c ∈ create_top_products_comparison_sheet prodTable9,
        c.name = "甲"
        ∧ c.revChanges = [("时间段 2", "时间段 1", Val.num 25)])
    ∧ (∀ c ∈ create_top_products_comparison_sheet prodTable9,
        c.name ≠ "乙") := by
  have hform : create_brand_comparison_sheet t
      = if 1 < ((t.map (·.period)).dedup.length) then
          (t.map (·.platform)).dedup.flatMap (fun pl2 =>
            ((t.filter (fun r =>
              decide (r.platform = pl2))).map (·.brand)).dedup.filterMap
              (fun b2 =>
                if 1 < ((t.filter (fun r => decide (r.platform = pl2))).filter
                    (fun r => decide (r.brand = b2))).length
                then some (mkBrandCompRow pl2 b2
                  (((t.filter (fun r =>
                    decide (r.platform = pl2))).map (·.period)).dedup)
                  ((t.filter (fun r => decide (r.platform = pl2))).filter
                    (fun r => decide (r.brand = b2))))
                else none))
        else [] := rfl
  have hbd : (t.filter (fun r => decide (r.platform = pl))).filter
        (fun r => decide (r.brand = b))
      = t.filter (fun r => decide (r.platform = pl ∧ r.brand = b)) := by
    rw [List.filter_filter]
    refine List.filter_congr ?_
    intro r _
    rw [decide_and_decide]
    exact decide_eq_decide.mpr and_comm
  refine ⟨⟨?_, ?_⟩, ?_, ?_⟩
  · rintro ⟨c, hc, hcpl, hcb⟩
    rw [hform] at hc
    by_cases hg : 1 < ((t.map (·.period)).dedup.length)
    · rw [if_pos hg] at hc
      rcases List.mem_flatMap.mp hc with ⟨pl2, hpl2, hc2⟩
      rcases List.mem_filterMap.mp hc2 with ⟨b2, hb2, hsome⟩
      by_cases hlen : 1 < ((t.filter (fun r =>
          decide (r.platform = pl2))).filter
            (fun r => decide (r.brand = b2))).length
      · rw [if_pos hlen] at hsome
        have hcv := Option.some.inj hsome
        have hpe : pl2 = pl := by
          rw [← hcv] at hcpl
          exact hcpl
        have hbe : b2 = b := by
          rw [← hcv] at hcb
          exact hcb
        subst hpe
        subst hbe
        rw [hbd] at hlen
        have hsub : ((t.filter (fun r =>
            decide (r.platform = pl2 ∧ r.brand = b2))).map
              (fun r => (r.platform, r.brand, r.period))).Nodup :=
          List.Nodup.sublist
            (List.Sublist.map (fun r : BrandRow => (r.platform, r.brand, r.period))
              (List.filter_sublist t)) hnd
        have hmapeq : (t.filter (fun r =>
            decide (r.platform = pl2 ∧ r.brand = b2))).map
              (fun r => (r.platform, r.brand, r.period))
            = ((t.filter (fun r =>
                decide (r.platform = pl2 ∧ r.brand = b2))).map
                (·.period)).map (fun p => (pl2, b2, p)) := by
          rw [List.map_map]
          refine List.map_congr_left ?_
          intro r hr
          have h3 := of_decide_eq_true (List.mem_filter.mp hr).2
          show (r.platform, r.brand, r.period) = (pl2, b2, r.period)
          rw [h3.1, h3.2]
        rw [hmapeq] at hsub
        have hnp : ((t.filter (fun r =>
            decide (r.platform = pl2 ∧ r.brand = b2))).map
              (·.period)).Nodup := List.Nodup.of_map _ hsub
        rw [List.dedup_eq_self.mpr hnp, List.length_map]
        exact hlen
      · rw [if_neg hlen] at hsome
        exact Option.noConfusion hsome
    · rw [if_neg hg] at hc
      exact absurd hc (List.not_mem_nil c)
  · intro hlen2
    have hlenrows : 1 < (t.filter (fun r =>
        decide (r.platform = pl ∧ r.brand = b))).length := by
      have h1 : (((t.filter (fun r =>
          decide (r.platform = pl ∧ r.brand = b))).map (·.period)).dedup).length
          ≤ ((t.filter (fun r =>
            decide (r.platform = pl ∧ r.brand = b))).map (·.period)).length :=
        (List.dedup_sublist _).length_le
      rw [List.length_map] at h1
      exact lt_of_lt_of_le hlen2 h1
    have hne : t.filter (fun r =>
        decide (r.platform = pl ∧ r.brand = b)) ≠ [] := by
      intro h0
      rw [h0] at hlenrows
      simp at hlenrows
    rcases List.exists_mem_of_ne_nil _ hne with ⟨r0, hr0⟩
    rcases List.mem_filter.mp hr0 with ⟨hr0t, hr0q⟩
    have hr0pb := of_decide_eq_true hr0q
    have hg : 1 < ((t.map (·.period)).dedup.length) := by
      have hsubset : ∀ p ∈ ((t.filter (fun r =>
          decide (r.platform = pl ∧ r.brand = b))).map (·.period)).dedup,
          p ∈ (t.map (·.period)).dedup := by
        intro p hp
        rcases List.mem_map.mp (List.mem_dedup.mp hp) with ⟨r, hrf, rfl⟩
        exact List.mem_dedup.mpr
          (List.mem_map.mpr ⟨r, (List.mem_filter.mp hrf).1, rfl⟩)
      have hsp := List.subperm_of_subset (List.nodup_dedup _) hsubset
      exact lt_of_lt_of_le hlen2 hsp.length_le
    refine ⟨mkBrandCompRow pl b
      (((t.filter (fun r => decide (r.platform = pl))).map (·.period)).dedup)
      ((t.filter (fun r => decide (r.platform = pl))).filter
        (fun r => decide (r.brand = b))), ?_, rfl, rfl⟩
    rw [hform, if_pos hg]
    refine List.mem_flatMap.mpr ⟨pl, ?_, ?_⟩
    · exact List.mem_dedup.mpr (List.mem_map.mpr ⟨r0, hr0t, hr0pb.1⟩)
    · refine List.mem_filterMap.mpr ⟨b, ?_, ?_⟩
      · exact List.mem_dedup.mpr (List.mem_map.mpr
          ⟨r0, List.mem_filter.mpr ⟨hr0t, decide_eq_true hr0pb.1⟩, hr0pb.2⟩)
      · have hbd_len : 1 < ((t.filter (fun r =>
            decide (r.platform = pl))).filter
              (fun r => decide (r.brand = b))).length := by
          rw [hbd]
          exact hlenrows
        rw [if_pos hbd_len]
  · with_unfolding_all decide
  · with_unfolding_all decide

theorem comparison_reshaper_multi_period_only_witness :
    ((brandTable9.map (fun r => (r.platform, r.brand, r.period))).Nodup) ∧
    (((∃ c ∈ create_brand_comparison_sheet brandTable9,
        c.platform = "X" ∧ c.brand = "bb") ↔
      1 < (((brandTable9.filter (fun r =>
        decide (r.platform = "X" ∧ r.brand = "bb"))).map
          (·.period)).dedup.length))
    ∧ (∃ c ∈ create_top_products_comparison_sheet prodTable9,
        c.name = "甲"
        ∧ c.revChanges = [("时间段 2", "时间段 1", Val.num 25)])
    ∧ (∀ c ∈ create_top_products_comparison_sheet prodTable9,
        c.name ≠ "乙")) :=
  ⟨by decide,
    comparison_reshaper_multi_period_only brandTable9 "X" "bb" (by decide)⟩

/-- C10 (confirmed): the four share closures of `get_top_brands_by_segment`
are total on every row: a null segment, or a stratum-totals lookup that
fails (`KeyError` from `.loc`), yields the share 0 rather than an
exception, for revenue and volume shares alike, in the per-platform and
all-platforms variants alike. -/
theorem share_closures_return_zero_on_lookup_failure
    (df : List SaleRec) (ranges : List ℚ) (row : TBRow) :
    (row.seg = none →
      calculate_share df ranges row = Val.num 0
      ∧ calculate_volume_share df ranges row = Val.num 0
      ∧ calculate_all_platform_share df ranges row = Val.num 0
      ∧ calculate_all_platform_volume_share df ranges row = Val.num 0)
    ∧ (∀ sg, row.seg = some sg →
        (segTotal df ranges row.period row.platform sg = none →
          calculate_share df ranges row = Val.num 0
          ∧ calculate_volume_share df ranges row = Val.num 0)
        ∧ (allSegTotal df ranges row.period sg = none →
          calculate_all_platform_share df ranges row = Val.num 0
          ∧ calculate_all_platform_volume_share df ranges row = Val.num 0)) := by
  constructor
  · intro h
    refine ⟨?_, ?_, ?_, ?_⟩ <;>
      simp [calculate_share, calculate_volume_share,
        calculate_all_platform_share, calculate_all_platform_volume_share, h]
  · intro sg hsg
    constructor
    · intro h
      constructor <;>
        simp [calculate_share, calculate_volume_share, hsg, h]
    · intro h
      constructor <;>
        simp [calculate_all_platform_share,
          calculate_all_platform_volume_share, hsg, h]

/-- Witness for C10: on the empty record set every totals lookup fails,
and the share closures return 0 on a concrete row. -/
theorem share_closures_return_zero_witness :
    segTotal [] [0, 100] "A" "X" (0, 100) = none
    ∧ calculate_share [] [0, 100] ⟨"A", "X", some (0, 100), "b", 7, 3⟩
      = Val.num 0
    ∧ calculate_all_platform_volume_share [] [0, 100]
      ⟨"A", "X", some (0, 100), "b", 7, 3⟩ = Val.num 0 := by
  refine ⟨by decide, ?_, ?_⟩
  · exact (((share_closures_return_zero_on_lookup_failure [] [0, 100]
      ⟨"A", "X", some (0, 100), "b", 7, 3⟩).2 (0, 100) rfl).1 (by decide)).1
  · exact (((share_closures_return_zero_on_lookup_failure [] [0, 100]
      ⟨"A", "X", some (0, 100), "b", 7, 3⟩).2 (0, 100) rfl).2 (by decide)).2

end Lamp
